import Mathlib

/-!
# A shallow embedding of the clox scanner and virtual machine

This file embeds the two source files of the repository,
`src/scanner.c` and `src/vm.c`, as executable Lean definitions and
proves theorems about them.

Conventions of the embedding:

* The C source string is a `List Char`; reading past the end of the
  list yields the NUL terminator, exactly as a C read of the
  terminator byte of a NUL-terminated string.
* Machine pointers into the value stack are indices from the bottom of
  the stack; pointers to heap objects are numeric ids allocated by an
  ever-increasing counter, so pointer identity is id equality.
* IEEE-754 doubles are modelled by the rationals: the claims proved
  here concern operand-type dispatch and structural effects of the
  opcodes, not rounding, NaN or division by zero.
* C behaviour that is undefined (reads out of bounds, dispatch on a
  byte that is no opcode) is modelled by an explicit `stuck` outcome.
-/

namespace Clox

/-- The NUL terminator; the C scanner reads source text as a
NUL-terminated string. -/
def NUL : Char := Char.ofNat 0

/-- Read the character at index `i`; past the end of the list this
yields the NUL terminator (the C read of the terminating byte). -/
def peekAt (src : List Char) (i : Nat) : Char := src.getD i NUL

/-- scanner.c `isAtEnd`: the character under the cursor is NUL. -/
def isAtEnd (src : List Char) (i : Nat) : Bool := peekAt src i == NUL

/-- scanner.c `isAlpha`. -/
def isAlpha (c : Char) : Bool :=
  (Char.ofNat 97 ≤ c && c ≤ Char.ofNat 122) ||
  (Char.ofNat 65 ≤ c && c ≤ Char.ofNat 90) ||
  c == Char.ofNat 95

/-- scanner.c `isDigit`. -/
def isDigit (c : Char) : Bool :=
  Char.ofNat 48 ≤ c && c ≤ Char.ofNat 57

/-- scanner.c `isHex`: a hexadecimal letter, either case. -/
def isHex (c : Char) : Bool :=
  (Char.ofNat 97 ≤ c && c ≤ Char.ofNat 102) ||
  (Char.ofNat 65 ≤ c && c ≤ Char.ofNat 70)

/-- The token types of the scanner (scanner.h / spec.md section 6).
The `TOKEN_` prefix of the C enumerators is dropped. -/
inductive TokenType where
  | LEFT_PAREN | RIGHT_PAREN | LEFT_BRACE | RIGHT_BRACE
  | SEMICOLON | COMMA | DOT | MINUS | PLUS | SLASH | STAR
  | QUESTION | COLON
  | BANG | BANG_EQUAL | EQUAL | EQUAL_EQUAL
  | LESS | LESS_EQUAL | GREATER | GREATER_EQUAL
  | STRING | NUMBER | IDENTIFIER
  | AND | CLASS | ELSE | FALSE | FOR | FUN | IF | NIL | OR
  | PRINT | RETURN | SUPER | THIS | TRUE | VAR | WHILE
  | ERROR | EOF
deriving DecidableEq, Repr

/-- Where the text of a token lives: `makeToken` points into the
source text, `errorToken` points at a static message string. -/
inductive TokenStart where
  | inSrc (pos : Nat)
  | literal (msg : String)
deriving DecidableEq, Repr

/-- scanner.c `Token`: type, start pointer, length, line. -/
structure Token where
  type : TokenType
  start : TokenStart
  length : Nat
  line : Nat
deriving DecidableEq, Repr

/-- scanner.c `Scanner`: the cursor state over a fixed source text. -/
structure Scanner where
  start : Nat
  current : Nat
  line : Nat
deriving DecidableEq, Repr

/-- scanner.c `initScanner`. -/
def initScanner : Scanner := ⟨0, 0, 1⟩

/-- scanner.c `makeToken`: the token borrows the slice of the source
from `start` (inclusive) to `current` (exclusive). -/
def makeToken (t : TokenType) (start current line : Nat) : Token :=
  ⟨t, .inSrc start, current - start, line⟩

/-- scanner.c `errorToken`: the token borrows a static message, not
the source text. -/
def errorToken (msg : String) (line : Nat) : Token :=
  ⟨.ERROR, .literal msg, msg.length, line⟩

/-- If the character under the cursor is not NUL the cursor is inside
the source. -/
theorem lt_length_of_peek_ne_nul {src : List Char} {i : Nat}
    (h : peekAt src i ≠ NUL) : i < src.length := by
  by_contra hge
  exact h (List.getD_eq_default _ _ (Nat.le_of_not_lt hge))

/-- The loop of the `//` comment case of scanner.c `skipWhitespace`:
`while (peek() != '\n' && !isAtEnd()) advance();`. -/
def skipLineComment (src : List Char) (cur : Nat) : Nat :=
  if h : peekAt src cur ≠ Char.ofNat 10 ∧ peekAt src cur ≠ NUL then
    skipLineComment src (cur + 1)
  else cur
termination_by src.length - cur
decreasing_by
  have := lt_length_of_peek_ne_nul h.2
  omega

/-- scanner.c `skipWhitespace`: skip blanks and line comments,
counting newlines; returns the new cursor and line. -/
def skipWhitespace (src : List Char) (cur line : Nat) : Nat × Nat :=
  if peekAt src cur == Char.ofNat 32 ∨ peekAt src cur == Char.ofNat 13 ∨
     peekAt src cur == Char.ofNat 9 then
    skipWhitespace src (cur + 1) line
  else if h10 : peekAt src cur == Char.ofNat 10 then
    skipWhitespace src (cur + 1) (line + 1)
  else if hsl : peekAt src cur == Char.ofNat 47 then
    if peekAt src (cur + 1) == Char.ofNat 47 then
      skipWhitespace src (skipLineComment src cur) line
    else (cur, line)
  else (cur, line)
termination_by src.length - cur
decreasing_by
  · rename_i h
    have hne : peekAt src cur ≠ NUL := by
      rcases h with h | h | h <;> · rw [eq_of_beq h]; decide
    have := lt_length_of_peek_ne_nul hne
    omega
  · have hne : peekAt src cur ≠ NUL := by rw [eq_of_beq h10]; decide
    have := lt_length_of_peek_ne_nul hne
    omega
  · have hne : peekAt src cur ≠ NUL := by rw [eq_of_beq hsl]; decide
    have hcur : cur < src.length := lt_length_of_peek_ne_nul hne
    have hgt : cur < skipLineComment src cur := by
      rw [skipLineComment]
      have hcond : peekAt src cur ≠ Char.ofNat 10 ∧ peekAt src cur ≠ NUL := by
        constructor
        · rw [eq_of_beq hsl]; decide
        · exact hne
      rw [dif_pos hcond]
      have : ∀ j, j ≤ skipLineComment src j := by
        intro j
        induction j using skipLineComment.induct src with
        | case1 j hj ih =>
          rw [skipLineComment, dif_pos hj]; omega
        | case2 j hj =>
          rw [skipLineComment, dif_neg hj]
      have := this (cur + 1)
      omega
    omega

/-- The loop of scanner.c `identifier`:
`while (isAlpha(peek()) || isDigit(peek())) advance();`. -/
def identLoop (src : List Char) (cur : Nat) : Nat :=
  if h : isAlpha (peekAt src cur) || isDigit (peekAt src cur) then
    identLoop src (cur + 1)
  else cur
termination_by src.length - cur
decreasing_by
  have hne : peekAt src cur ≠ NUL := by
    intro hnul; rw [hnul] at h; simp [isAlpha, isDigit, NUL] at h
  have := lt_length_of_peek_ne_nul hne
  omega

/-- The decimal-digit loop of scanner.c `number`:
`while (isDigit(peek())) advance();`. -/
def digitLoop (src : List Char) (cur : Nat) : Nat :=
  if h : isDigit (peekAt src cur) then digitLoop src (cur + 1) else cur
termination_by src.length - cur
decreasing_by
  have hne : peekAt src cur ≠ NUL := by
    intro hnul; rw [hnul] at h; simp [isDigit, NUL] at h
  have := lt_length_of_peek_ne_nul hne
  omega

/-- The hex-digit loop of scanner.c `number`:
`while (isDigit(peek()) || isHex(peek())) advance();`. -/
def hexLoop (src : List Char) (cur : Nat) : Nat :=
  if h : isDigit (peekAt src cur) || isHex (peekAt src cur) then
    hexLoop src (cur + 1)
  else cur
termination_by src.length - cur
decreasing_by
  have hne : peekAt src cur ≠ NUL := by
    intro hnul; rw [hnul] at h; simp [isDigit, isHex, NUL] at h
  have := lt_length_of_peek_ne_nul hne
  omega

/-- The keyword table. The generated trie `lex.def` included by
scanner.c is not under src/; `Modelled from the spec:` section 6 lists
the keyword set that `checkKeyword` recognises. -/
def keywords : List (String × TokenType) :=
  [("and", .AND), ("class", .CLASS), ("else", .ELSE), ("false", .FALSE),
   ("for", .FOR), ("fun", .FUN), ("if", .IF), ("nil", .NIL), ("or", .OR),
   ("print", .PRINT), ("return", .RETURN), ("super", .SUPER),
   ("this", .THIS), ("true", .TRUE), ("var", .VAR), ("while", .WHILE)]

/-- The slice of the source from `a` (inclusive) to `b` (exclusive). -/
def sliceOf (src : List Char) (a b : Nat) : String :=
  String.mk ((src.drop a).take (b - a))

/-- scanner.c `identifierType` with `checkKeyword` from the keyword
table: keyword token type on a hit, else `IDENTIFIER`. -/
def identifierType (src : List Char) (start cur : Nat) : TokenType :=
  match keywords.lookup (sliceOf src start cur) with
  | some t => t
  | none => .IDENTIFIER

/-- scanner.c `number`, entered with `cur` one past the first digit
(`scanner.current[-1]` is that digit). Returns the token and the new
cursor. -/
def number (src : List Char) (start cur line : Nat) : Token × Nat :=
  let c := peekAt src (cur - 1)
  if c == Char.ofNat 48 ∧
     (peekAt src cur == Char.ofNat 120 ∨ peekAt src cur == Char.ofNat 88) then
    let cur2 := hexLoop src (cur + 1)
    (makeToken .NUMBER start cur2 line, cur2)
  else
    let cur2 := digitLoop src cur
    if peekAt src cur2 == Char.ofNat 46 ∧ isDigit (peekAt src (cur2 + 1)) then
      let cur3 := digitLoop src (cur2 + 1)
      (makeToken .NUMBER start cur3 line, cur3)
    else
      (makeToken .NUMBER start cur2 line, cur2)

/-- The loop of scanner.c `string`:
`while (peek() != '"' && !isAtEnd()) { if (peek() == '\n') line++; advance(); }`.
Returns the new cursor and line. -/
def stringLoop (src : List Char) (cur line : Nat) : Nat × Nat :=
  if h : peekAt src cur ≠ Char.ofNat 34 ∧ peekAt src cur ≠ NUL then
    if peekAt src cur == Char.ofNat 10 then
      stringLoop src (cur + 1) (line + 1)
    else
      stringLoop src (cur + 1) line
  else (cur, line)
termination_by src.length - cur
decreasing_by
  all_goals
    have := lt_length_of_peek_ne_nul h.2
    omega

/-- scanner.c `string`, entered with `cur` one past the opening
quote. Returns the token, the new cursor and the new line. -/
def stringTok (src : List Char) (start cur line : Nat) : Token × Nat × Nat :=
  let (cur2, line2) := stringLoop src cur line
  if isAtEnd src cur2 then
    (errorToken "Unterminated string." line2, cur2, line2)
  else
    (makeToken .STRING start (cur2 + 1) line2, cur2 + 1, line2)

/-- scanner.c `match`: consume the cursor character if it equals
`expected` (false at end of source). Returns the flag and cursor. -/
def matchChar (src : List Char) (cur : Nat) (expected : Char) : Bool × Nat :=
  if isAtEnd src cur then (false, cur)
  else if peekAt src cur ≠ expected then (false, cur)
  else (true, cur + 1)

/-- A one- or two-character token of scanner.c `scanToken`
(the `!` `=` `<` `>` cases). -/
def twoCharToken (src : List Char) (start cur line : Nat)
    (expected : Char) (two one : TokenType) : Token × Scanner :=
  let (hit, cur2) := matchChar src cur expected
  (makeToken (if hit then two else one) start cur2 line, ⟨start, cur2, line⟩)

/-- scanner.c `scanToken`: skip whitespace, then emit exactly one
token; returns the token and the updated scanner. -/
def scanToken (src : List Char) (sc : Scanner) : Token × Scanner :=
  let (cur, line) := skipWhitespace src sc.current sc.line
  let start := cur
  if isAtEnd src cur then
    (makeToken .EOF start cur line, ⟨start, cur, line⟩)
  else
    let c := peekAt src cur
    let cur1 := cur + 1
    if isAlpha c then
      let cur2 := identLoop src cur1
      (makeToken (identifierType src start cur2) start cur2 line,
       ⟨start, cur2, line⟩)
    else if isDigit c then
      let (t, cur2) := number src start cur1 line
      (t, ⟨start, cur2, line⟩)
    else if c == Char.ofNat 40 then
      (makeToken .LEFT_PAREN start cur1 line, ⟨start, cur1, line⟩)
    else if c == Char.ofNat 41 then
      (makeToken .RIGHT_PAREN start cur1 line, ⟨start, cur1, line⟩)
    else if c == Char.ofNat 123 then
      (makeToken .LEFT_BRACE start cur1 line, ⟨start, cur1, line⟩)
    else if c == Char.ofNat 125 then
      (makeToken .RIGHT_BRACE start cur1 line, ⟨start, cur1, line⟩)
    else if c == Char.ofNat 59 then
      (makeToken .SEMICOLON start cur1 line, ⟨start, cur1, line⟩)
    else if c == Char.ofNat 44 then
      (makeToken .COMMA start cur1 line, ⟨start, cur1, line⟩)
    else if c == Char.ofNat 46 then
      (makeToken .DOT start cur1 line, ⟨start, cur1, line⟩)
    else if c == Char.ofNat 45 then
      (makeToken .MINUS start cur1 line, ⟨start, cur1, line⟩)
    else if c == Char.ofNat 43 then
      (makeToken .PLUS start cur1 line, ⟨start, cur1, line⟩)
    else if c == Char.ofNat 47 then
      (makeToken .SLASH start cur1 line, ⟨start, cur1, line⟩)
    else if c == Char.ofNat 42 then
      (makeToken .STAR start cur1 line, ⟨start, cur1, line⟩)
    else if c == Char.ofNat 63 then
      (makeToken .QUESTION start cur1 line, ⟨start, cur1, line⟩)
    else if c == Char.ofNat 58 then
      (makeToken .COLON start cur1 line, ⟨start, cur1, line⟩)
    else if c == Char.ofNat 33 then
      twoCharToken src start cur1 line (Char.ofNat 61) .BANG_EQUAL .BANG
    else if c == Char.ofNat 61 then
      twoCharToken src start cur1 line (Char.ofNat 61) .EQUAL_EQUAL .EQUAL
    else if c == Char.ofNat 60 then
      twoCharToken src start cur1 line (Char.ofNat 61) .LESS_EQUAL .LESS
    else if c == Char.ofNat 62 then
      twoCharToken src start cur1 line (Char.ofNat 61) .GREATER_EQUAL .GREATER
    else if c == Char.ofNat 34 then
      let (t, cur2, line2) := stringTok src start cur1 line
      (t, ⟨start, cur2, line2⟩)
    else
      (errorToken "Unexpected character." line, ⟨start, cur1, line⟩)

/-! ## Cursor bounds for the scanner loops -/

theorem skipLineComment_ge (src : List Char) (cur : Nat) :
    cur ≤ skipLineComment src cur := by
  induction cur using skipLineComment.induct src with
  | case1 cur hg ih => rw [skipLineComment, dif_pos hg]; omega
  | case2 cur hg => rw [skipLineComment, dif_neg hg]

theorem skipLineComment_le (src : List Char) (cur : Nat)
    (h : cur ≤ src.length) : skipLineComment src cur ≤ src.length := by
  induction cur using skipLineComment.induct src with
  | case1 cur hg ih =>
    rw [skipLineComment, dif_pos hg]
    exact ih (by have := lt_length_of_peek_ne_nul hg.2; omega)
  | case2 cur hg => rw [skipLineComment, dif_neg hg]; exact h

theorem skipWhitespace_ge (src : List Char) (cur line : Nat) :
    cur ≤ (skipWhitespace src cur line).1 := by
  induction cur, line using skipWhitespace.induct src with
  | case1 cur line hg ih =>
    rw [skipWhitespace, if_pos hg]; omega
  | case2 cur line hg h10 ih =>
    rw [skipWhitespace, if_neg hg, dif_pos h10]; omega
  | case3 cur line hg h10 hsl hsl2 ih =>
    rw [skipWhitespace, if_neg hg, dif_neg h10, dif_pos hsl, if_pos hsl2]
    have := skipLineComment_ge src cur
    omega
  | case4 cur line hg h10 hsl hsl2 =>
    rw [skipWhitespace, if_neg hg, dif_neg h10, dif_pos hsl, if_neg hsl2]
  | case5 cur line hg h10 hsl =>
    rw [skipWhitespace, if_neg hg, dif_neg h10, dif_neg hsl]

theorem skipWhitespace_le (src : List Char) (cur line : Nat)
    (h : cur ≤ src.length) : (skipWhitespace src cur line).1 ≤ src.length := by
  induction cur, line using skipWhitespace.induct src with
  | case1 cur line hg ih =>
    rw [skipWhitespace, if_pos hg]
    refine ih ?_
    have hne : peekAt src cur ≠ NUL := by
      rcases hg with h1 | h1 | h1 <;> · rw [eq_of_beq h1]; decide
    have := lt_length_of_peek_ne_nul hne
    omega
  | case2 cur line hg h10 ih =>
    rw [skipWhitespace, if_neg hg, dif_pos h10]
    refine ih ?_
    have hne : peekAt src cur ≠ NUL := by rw [eq_of_beq h10]; decide
    have := lt_length_of_peek_ne_nul hne
    omega
  | case3 cur line hg h10 hsl hsl2 ih =>
    rw [skipWhitespace, if_neg hg, dif_neg h10, dif_pos hsl, if_pos hsl2]
    exact ih (skipLineComment_le src cur h)
  | case4 cur line hg h10 hsl hsl2 =>
    rw [skipWhitespace, if_neg hg, dif_neg h10, dif_pos hsl, if_neg hsl2]
    exact h
  | case5 cur line hg h10 hsl =>
    rw [skipWhitespace, if_neg hg, dif_neg h10, dif_neg hsl]
    exact h

theorem identLoop_ge (src : List Char) (cur : Nat) : cur ≤ identLoop src cur := by
  induction cur using identLoop.induct src with
  | case1 cur hg ih => rw [identLoop, dif_pos hg]; omega
  | case2 cur hg => rw [identLoop, dif_neg hg]

theorem identLoop_le (src : List Char) (cur : Nat) (h : cur ≤ src.length) :
    identLoop src cur ≤ src.length := by
  induction cur using identLoop.induct src with
  | case1 cur hg ih =>
    rw [identLoop, dif_pos hg]
    refine ih ?_
    have hne : peekAt src cur ≠ NUL := by
      intro hnul; rw [hnul] at hg; simp [isAlpha, isDigit, NUL] at hg
    have := lt_length_of_peek_ne_nul hne
    omega
  | case2 cur hg => rw [identLoop, dif_neg hg]; exact h

theorem digitLoop_ge (src : List Char) (cur : Nat) : cur ≤ digitLoop src cur := by
  induction cur using digitLoop.induct src with
  | case1 cur hg ih => rw [digitLoop, dif_pos hg]; omega
  | case2 cur hg => rw [digitLoop, dif_neg hg]

theorem digitLoop_le (src : List Char) (cur : Nat) (h : cur ≤ src.length) :
    digitLoop src cur ≤ src.length := by
  induction cur using digitLoop.induct src with
  | case1 cur hg ih =>
    rw [digitLoop, dif_pos hg]
    refine ih ?_
    have hne : peekAt src cur ≠ NUL := by
      intro hnul; rw [hnul] at hg; simp [isDigit, NUL] at hg
    have := lt_length_of_peek_ne_nul hne
    omega
  | case2 cur hg => rw [digitLoop, dif_neg hg]; exact h

theorem hexLoop_ge (src : List Char) (cur : Nat) : cur ≤ hexLoop src cur := by
  induction cur using hexLoop.induct src with
  | case1 cur hg ih => rw [hexLoop, dif_pos hg]; omega
  | case2 cur hg => rw [hexLoop, dif_neg hg]

theorem hexLoop_le (src : List Char) (cur : Nat) (h : cur ≤ src.length) :
    hexLoop src cur ≤ src.length := by
  induction cur using hexLoop.induct src with
  | case1 cur hg ih =>
    rw [hexLoop, dif_pos hg]
    refine ih ?_
    have hne : peekAt src cur ≠ NUL := by
      intro hnul; rw [hnul] at hg; simp [isDigit, isHex, NUL] at hg
    have := lt_length_of_peek_ne_nul hne
    omega
  | case2 cur hg => rw [hexLoop, dif_neg hg]; exact h

theorem stringLoop_ge (src : List Char) (cur line : Nat) :
    cur ≤ (stringLoop src cur line).1 := by
  induction cur, line using stringLoop.induct src with
  | case1 cur line hg h10 ih =>
    rw [stringLoop, dif_pos hg, if_pos h10]; omega
  | case2 cur line hg h10 ih =>
    rw [stringLoop, dif_pos hg, if_neg h10]; omega
  | case3 cur line hg => rw [stringLoop, dif_neg hg]

theorem stringLoop_le (src : List Char) (cur line : Nat)
    (h : cur ≤ src.length) : (stringLoop src cur line).1 ≤ src.length := by
  induction cur, line using stringLoop.induct src with
  | case1 cur line hg h10 ih =>
    rw [stringLoop, dif_pos hg, if_pos h10]
    exact ih (by have := lt_length_of_peek_ne_nul hg.2; omega)
  | case2 cur line hg h10 ih =>
    rw [stringLoop, dif_pos hg, if_neg h10]
    exact ih (by have := lt_length_of_peek_ne_nul hg.2; omega)
  | case3 cur line hg => rw [stringLoop, dif_neg hg]; exact h

theorem number_ge (src : List Char) (start cur line : Nat) :
    cur ≤ (number src start cur line).2 := by
  simp only [number]
  split_ifs with hg hf
  · have := hexLoop_ge src (cur + 1); simpa using by omega
  · have h1 := digitLoop_ge src cur
    have h2 := digitLoop_ge src (digitLoop src cur + 1)
    simpa using by omega
  · simpa using digitLoop_ge src cur

theorem number_le (src : List Char) (start cur line : Nat)
    (h : cur ≤ src.length) : (number src start cur line).2 ≤ src.length := by
  simp only [number]
  split_ifs with hg hf
  · have hne : peekAt src cur ≠ NUL := by
      rcases hg.2 with h1 | h1 <;> · rw [eq_of_beq h1]; decide
    have := lt_length_of_peek_ne_nul hne
    have := hexLoop_le src (cur + 1) (by omega)
    simpa using this
  · have hne : peekAt src (digitLoop src cur) ≠ NUL := by
      rw [eq_of_beq hf.1]; decide
    have := lt_length_of_peek_ne_nul hne
    have := digitLoop_le src (digitLoop src cur + 1) (by omega)
    simpa using this
  · simpa using digitLoop_le src cur h

/-! ## Token shape lemmas -/

/-- A token is a well-formed borrow: a non-error token views a slice
of the source (a text of length `len`), an error token views a static
message of its own length. -/
def tokenOk (t : Token) (len : Nat) : Prop :=
  (t.type ≠ .ERROR → ∃ s, t.start = .inSrc s ∧ s + t.length ≤ len) ∧
  (t.type = .ERROR → ∃ m, t.start = .literal m ∧ t.length = m.length)

theorem tokenOk_make {ty : TokenType} (hty : ty ≠ .ERROR)
    {s c len line : Nat} (hs : s ≤ len) (hc : c ≤ len) :
    tokenOk (makeToken ty s c line) len := by
  refine ⟨fun _ => ⟨s, rfl, ?_⟩, fun h => absurd h hty⟩
  simp only [makeToken]
  omega

theorem tokenOk_error (msg : String) (line len : Nat) :
    tokenOk (errorToken msg line) len := by
  exact ⟨fun hne => absurd rfl hne, fun _ => ⟨msg, rfl, rfl⟩⟩

theorem lookup_keywords_ne {s : String} {t : TokenType}
    (h : keywords.lookup s = some t) : t ≠ .ERROR ∧ t ≠ .EOF := by
  simp only [keywords, List.lookup] at h
  repeat' split at h
  all_goals try (rw [Option.some_inj] at h; subst h)
  all_goals first | decide | exact Option.noConfusion h

theorem identifierType_ne (src : List Char) (a b : Nat) :
    identifierType src a b ≠ .ERROR ∧ identifierType src a b ≠ .EOF := by
  unfold identifierType
  rcases h : keywords.lookup (sliceOf src a b) with _ | t
  · decide
  · exact lookup_keywords_ne h

theorem number_shape (src : List Char) (start cur line : Nat) :
    (number src start cur line).1 =
      makeToken .NUMBER start ((number src start cur line).2) line := by
  simp only [number]
  split_ifs <;> rfl

theorem stringTok_ge (src : List Char) (start cur line : Nat) :
    cur ≤ (stringTok src start cur line).2.1 := by
  have h := stringLoop_ge src cur line
  simp only [stringTok]
  rcases hsl : stringLoop src cur line with ⟨cur2, line2⟩
  rw [hsl] at h
  split_ifs <;> simpa using by omega

theorem stringTok_le (src : List Char) (start cur line : Nat)
    (h : cur ≤ src.length) : (stringTok src start cur line).2.1 ≤ src.length := by
  have hle := stringLoop_le src cur line h
  simp only [stringTok]
  rcases hsl : stringLoop src cur line with ⟨cur2, line2⟩
  rw [hsl] at hle
  split_ifs with hend
  · simpa using hle
  · have : peekAt src cur2 ≠ NUL := by simpa [isAtEnd] using hend
    have := lt_length_of_peek_ne_nul this
    simpa using by omega

theorem stringTok_tokenOk (src : List Char) (start cur line : Nat)
    (hs : start ≤ src.length) (h : cur ≤ src.length) :
    tokenOk (stringTok src start cur line).1 src.length := by
  have hle := stringLoop_le src cur line h
  simp only [stringTok]
  rcases hsl : stringLoop src cur line with ⟨cur2, line2⟩
  rw [hsl] at hle
  split_ifs with hend
  · exact tokenOk_error _ _ _
  · have : peekAt src cur2 ≠ NUL := by simpa [isAtEnd] using hend
    have := lt_length_of_peek_ne_nul this
    exact tokenOk_make (by decide) hs (by omega)

theorem stringTok_ne_eof (src : List Char) (start cur line : Nat) :
    (stringTok src start cur line).1.type ≠ .EOF := by
  simp only [stringTok]
  rcases hsl : stringLoop src cur line with ⟨cur2, line2⟩
  split_ifs <;> simp [errorToken, makeToken]

set_option maxHeartbeats 1600000 in
/-- The combined cursor-progress and token-borrow facts of
`scanToken`: the cursor never moves backwards and never leaves the
source, any token other than `EOF` strictly advances the cursor, and
the token is a well-formed borrow. -/
theorem scanToken_spec (src : List Char) (sc : Scanner)
    (h : sc.current ≤ src.length) :
    sc.current ≤ (scanToken src sc).2.current ∧
    (scanToken src sc).2.current ≤ src.length ∧
    ((scanToken src sc).1.type ≠ .EOF → sc.current < (scanToken src sc).2.current) ∧
    tokenOk (scanToken src sc).1 src.length := by
  have hge := skipWhitespace_ge src sc.current sc.line
  have hle := skipWhitespace_le src sc.current sc.line h
  unfold scanToken
  rcases hsw : skipWhitespace src sc.current sc.line with ⟨cur, line⟩
  rw [hsw] at hge hle
  simp only at hge hle ⊢
  have base : ∀ (ty : TokenType) (c2 : Nat), ty ≠ .ERROR → cur < c2 →
      c2 ≤ src.length →
      (sc.current ≤ c2 ∧ c2 ≤ src.length ∧ (ty ≠ .EOF → sc.current < c2) ∧
       tokenOk (makeToken ty cur c2 line) src.length) := by
    intro ty c2 hty hlt hle2
    exact ⟨by omega, hle2, fun _ => by omega,
      tokenOk_make hty (by omega) hle2⟩
  by_cases hEnd : isAtEnd src cur = true
  · rw [if_pos hEnd]
    exact ⟨hge, hle, fun hne => absurd rfl hne,
      tokenOk_make (by decide) hle hle⟩
  rw [if_neg hEnd]
  have hcur : cur < src.length :=
    lt_length_of_peek_ne_nul (by simpa [isAtEnd] using hEnd)
  by_cases hAl : isAlpha (peekAt src cur) = true
  · rw [if_pos hAl]
    have h1 := identLoop_ge src (cur + 1)
    have h2 := identLoop_le src (cur + 1) (by omega)
    have h3 := identifierType_ne src cur (identLoop src (cur + 1))
    have hb := base _ (identLoop src (cur + 1)) h3.1 (by omega) h2
    exact ⟨hb.1, hb.2.1, fun _ => hb.2.2.1 h3.2, hb.2.2.2⟩
  rw [if_neg hAl]
  by_cases hDig : isDigit (peekAt src cur) = true
  · rw [if_pos hDig]
    have hnge := number_ge src cur (cur + 1) line
    have h2 := number_le src cur (cur + 1) line (by omega)
    rw [number_shape src cur (cur + 1) line]
    exact base .NUMBER ((number src cur (cur + 1) line).2)
      (by decide) (by omega) h2
  rw [if_neg hDig]
  by_cases h40 : (peekAt src cur == Char.ofNat 40) = true
  · rw [if_pos h40]
    exact base .LEFT_PAREN (cur + 1) (by decide) (by omega) (by omega)
  rw [if_neg h40]
  by_cases h41 : (peekAt src cur == Char.ofNat 41) = true
  · rw [if_pos h41]
    exact base .RIGHT_PAREN (cur + 1) (by decide) (by omega) (by omega)
  rw [if_neg h41]
  by_cases h123 : (peekAt src cur == Char.ofNat 123) = true
  · rw [if_pos h123]
    exact base .LEFT_BRACE (cur + 1) (by decide) (by omega) (by omega)
  rw [if_neg h123]
  by_cases h125 : (peekAt src cur == Char.ofNat 125) = true
  · rw [if_pos h125]
    exact base .RIGHT_BRACE (cur + 1) (by decide) (by omega) (by omega)
  rw [if_neg h125]
  by_cases h59 : (peekAt src cur == Char.ofNat 59) = true
  · rw [if_pos h59]
    exact base .SEMICOLON (cur + 1) (by decide) (by omega) (by omega)
  rw [if_neg h59]
  by_cases h44 : (peekAt src cur == Char.ofNat 44) = true
  · rw [if_pos h44]
    exact base .COMMA (cur + 1) (by decide) (by omega) (by omega)
  rw [if_neg h44]
  by_cases h46 : (peekAt src cur == Char.ofNat 46) = true
  · rw [if_pos h46]
    exact base .DOT (cur + 1) (by decide) (by omega) (by omega)
  rw [if_neg h46]
  by_cases h45 : (peekAt src cur == Char.ofNat 45) = true
  · rw [if_pos h45]
    exact base .MINUS (cur + 1) (by decide) (by omega) (by omega)
  rw [if_neg h45]
  by_cases h43 : (peekAt src cur == Char.ofNat 43) = true
  · rw [if_pos h43]
    exact base .PLUS (cur + 1) (by decide) (by omega) (by omega)
  rw [if_neg h43]
  by_cases h47 : (peekAt src cur == Char.ofNat 47) = true
  · rw [if_pos h47]
    exact base .SLASH (cur + 1) (by decide) (by omega) (by omega)
  rw [if_neg h47]
  by_cases h42 : (peekAt src cur == Char.ofNat 42) = true
  · rw [if_pos h42]
    exact base .STAR (cur + 1) (by decide) (by omega) (by omega)
  rw [if_neg h42]
  by_cases h63 : (peekAt src cur == Char.ofNat 63) = true
  · rw [if_pos h63]
    exact base .QUESTION (cur + 1) (by decide) (by omega) (by omega)
  rw [if_neg h63]
  by_cases h58 : (peekAt src cur == Char.ofNat 58) = true
  · rw [if_pos h58]
    exact base .COLON (cur + 1) (by decide) (by omega) (by omega)
  rw [if_neg h58]
  by_cases h33 : (peekAt src cur == Char.ofNat 33) = true
  · rw [if_pos h33]
    simp only [twoCharToken, matchChar]
    by_cases m1 : isAtEnd src (cur + 1) = true
    · simp only [if_pos m1]
      exact base .BANG (cur + 1) (by decide) (by omega) (by omega)
    simp only [if_neg m1]
    by_cases m2 : peekAt src (cur + 1) ≠ Char.ofNat 61
    · simp only [if_pos m2]
      exact base .BANG (cur + 1) (by decide) (by omega) (by omega)
    simp only [if_neg m2]
    have hne : peekAt src (cur + 1) ≠ NUL := by
      simp only [not_not] at m2; rw [m2]; decide
    have := lt_length_of_peek_ne_nul hne
    exact base .BANG_EQUAL (cur + 2) (by decide) (by omega) (by omega)
  rw [if_neg h33]
  by_cases h61 : (peekAt src cur == Char.ofNat 61) = true
  · rw [if_pos h61]
    simp only [twoCharToken, matchChar]
    by_cases m1 : isAtEnd src (cur + 1) = true
    · simp only [if_pos m1]
      exact base .EQUAL (cur + 1) (by decide) (by omega) (by omega)
    simp only [if_neg m1]
    by_cases m2 : peekAt src (cur + 1) ≠ Char.ofNat 61
    · simp only [if_pos m2]
      exact base .EQUAL (cur + 1) (by decide) (by omega) (by omega)
    simp only [if_neg m2]
    have hne : peekAt src (cur + 1) ≠ NUL := by
      simp only [not_not] at m2; rw [m2]; decide
    have := lt_length_of_peek_ne_nul hne
    exact base .EQUAL_EQUAL (cur + 2) (by decide) (by omega) (by omega)
  rw [if_neg h61]
  by_cases h60 : (peekAt src cur == Char.ofNat 60) = true
  · rw [if_pos h60]
    simp only [twoCharToken, matchChar]
    by_cases m1 : isAtEnd src (cur + 1) = true
    · simp only [if_pos m1]
      exact base .LESS (cur + 1) (by decide) (by omega) (by omega)
    simp only [if_neg m1]
    by_cases m2 : peekAt src (cur + 1) ≠ Char.ofNat 61
    · simp only [if_pos m2]
      exact base .LESS (cur + 1) (by decide) (by omega) (by omega)
    simp only [if_neg m2]
    have hne : peekAt src (cur + 1) ≠ NUL := by
      simp only [not_not] at m2; rw [m2]; decide
    have := lt_length_of_peek_ne_nul hne
    exact base .LESS_EQUAL (cur + 2) (by decide) (by omega) (by omega)
  rw [if_neg h60]
  by_cases h62 : (peekAt src cur == Char.ofNat 62) = true
  · rw [if_pos h62]
    simp only [twoCharToken, matchChar]
    by_cases m1 : isAtEnd src (cur + 1) = true
    · simp only [if_pos m1]
      exact base .GREATER (cur + 1) (by decide) (by omega) (by omega)
    simp only [if_neg m1]
    by_cases m2 : peekAt src (cur + 1) ≠ Char.ofNat 61
    · simp only [if_pos m2]
      exact base .GREATER (cur + 1) (by decide) (by omega) (by omega)
    simp only [if_neg m2]
    have hne : peekAt src (cur + 1) ≠ NUL := by
      simp only [not_not] at m2; rw [m2]; decide
    have := lt_length_of_peek_ne_nul hne
    exact base .GREATER_EQUAL (cur + 2) (by decide) (by omega) (by omega)
  rw [if_neg h62]
  by_cases h34 : (peekAt src cur == Char.ofNat 34) = true
  · rw [if_pos h34]
    have hstge := stringTok_ge src cur (cur + 1) line
    have h2 := stringTok_le src cur (cur + 1) line (by omega)
    have h3 := stringTok_tokenOk src cur (cur + 1) line (by omega) (by omega)
    have h4 := stringTok_ne_eof src cur (cur + 1) line
    exact ⟨hge.trans ((Nat.le_succ cur).trans hstge), h2,
      fun _ => Nat.lt_of_lt_of_le (Nat.lt_succ_of_le hge) hstge, h3⟩
  rw [if_neg h34]
  exact ⟨hge.trans (Nat.le_succ cur), Nat.succ_le_of_lt hcur,
    fun _ => Nat.lt_succ_of_le hge, tokenOk_error _ _ _⟩

/-! ## The hex-digit run after `0x` -/

/-- The hex loop consumes exactly the maximal run of hex digits. -/
theorem hexLoop_eq_takeWhile (src : List Char) (cur : Nat) :
    hexLoop src cur =
      cur + ((src.drop cur).takeWhile (fun c => isDigit c || isHex c)).length := by
  induction cur using hexLoop.induct src with
  | case1 cur hg ih =>
    have hne : peekAt src cur ≠ NUL := by
      intro hnul; rw [hnul] at hg; simp [isDigit, isHex, NUL] at hg
    have hlt : cur < src.length := lt_length_of_peek_ne_nul hne
    have hget : peekAt src cur = src[cur] := List.getD_eq_getElem src NUL hlt
    rw [hexLoop, dif_pos hg, ih, List.drop_eq_getElem_cons hlt,
        List.takeWhile_cons]
    rw [hget] at hg
    rw [if_pos hg]
    simp only [List.length_cons]
    omega
  | case2 cur hg =>
    rw [hexLoop, dif_neg hg]
    rcases Nat.lt_or_ge cur src.length with hlt | hge
    · have hget : peekAt src cur = src[cur] := List.getD_eq_getElem src NUL hlt
      rw [List.drop_eq_getElem_cons hlt, List.takeWhile_cons]
      rw [hget] at hg
      rw [if_neg (by simpa using hg)]
      simp
    · rw [List.drop_eq_nil_of_le hge]
      simp

/-- The loop of scanner.c `string` stops exactly at the closing quote
when one is reachable without crossing a quote or the terminator. -/
theorem stringLoop_exit (src : List Char) (j : Nat) :
    ∀ cur line, cur ≤ j →
      (∀ k, k < j → cur ≤ k →
        peekAt src k ≠ Char.ofNat 34 ∧ peekAt src k ≠ NUL) →
      peekAt src j = Char.ofNat 34 →
      (stringLoop src cur line).1 = j := by
  suffices H : ∀ n cur line, j - cur = n → cur ≤ j →
      (∀ k, k < j → cur ≤ k →
        peekAt src k ≠ Char.ofNat 34 ∧ peekAt src k ≠ NUL) →
      peekAt src j = Char.ofNat 34 →
      (stringLoop src cur line).1 = j by
    intro cur line h1 h2 h3
    exact H (j - cur) cur line rfl h1 h2 h3
  intro n
  induction n with
  | zero =>
    intro cur line hd hle hmid hj
    have hcj : cur = j := by omega
    subst hcj
    rw [stringLoop, dif_neg (by rw [hj]; simp)]
  | succ n ih =>
    intro cur line hd hle hmid hj
    have hcl : cur < j := by omega
    have hc := hmid cur hcl (le_refl cur)
    rw [stringLoop, dif_pos hc]
    split_ifs with h10
    · exact ih (cur + 1) (line + 1) (by omega) (by omega)
        (fun k hk1 hk2 => hmid k hk1 (by omega)) hj
    · exact ih (cur + 1) line (by omega) (by omega)
        (fun k hk1 hk2 => hmid k hk1 (by omega)) hj

/-! ## Claims C6, C7, C8, C10 -/

/-- C6 counterexample: scanning the two-character source `0x` emits a
NUMBER token of length 2 covering exactly the characters `0` and `x`,
so a NUMBER token beginning with `0x` need not contain any hexadecimal
digit after the `x` — the claim is false at this input. -/
theorem hex_number_counterexample :
    (scanToken [Char.ofNat 48, Char.ofNat 120] initScanner).1.type = .NUMBER ∧
    (scanToken [Char.ofNat 48, Char.ofNat 120] initScanner).1.start = .inSrc 0 ∧
    (scanToken [Char.ofNat 48, Char.ofNat 120] initScanner).1.length = 2 ∧
    ¬ 3 ≤ (scanToken [Char.ofNat 48, Char.ofNat 120] initScanner).1.length := by
  have h : scanToken [Char.ofNat 48, Char.ofNat 120] initScanner =
      (makeToken .NUMBER 0 2 1, ⟨0, 2, 1⟩) := by
    simp [scanToken, skipWhitespace, number, hexLoop, peekAt, NUL,
      isAtEnd, isAlpha, isDigit, isHex, initScanner]
  rw [h]
  refine ⟨rfl, rfl, rfl, by decide⟩

/-- C6 amended: after a `0` followed by `x` or `X` the scanner
consumes the maximal, possibly empty, run of hexadecimal digits and
emits a NUMBER token regardless; the token length is 2 plus the length
of that run. -/
theorem hex_number_run (rest : List Char) :
    ((scanToken (Char.ofNat 48 :: Char.ofNat 120 :: rest) initScanner).1.type
        = .NUMBER ∧
     (scanToken (Char.ofNat 48 :: Char.ofNat 120 :: rest) initScanner).1.length
        = 2 + (rest.takeWhile (fun c => isDigit c || isHex c)).length) ∧
    ((scanToken (Char.ofNat 48 :: Char.ofNat 88 :: rest) initScanner).1.type
        = .NUMBER ∧
     (scanToken (Char.ofNat 48 :: Char.ofNat 88 :: rest) initScanner).1.length
        = 2 + (rest.takeWhile (fun c => isDigit c || isHex c)).length) := by
  constructor
  all_goals
    constructor
    all_goals
      simp [scanToken, skipWhitespace, number, peekAt, NUL, isAtEnd,
        isAlpha, isDigit, initScanner, makeToken,
        hexLoop_eq_takeWhile]

/-- C7 counterexample: on the source `@` the scanner returns an ERROR
token whose text is the static message string, not a slice view into
the source — so not every token points into the original source. -/
theorem token_borrow_counterexample :
    (scanToken [Char.ofNat 64] initScanner).1.start =
      .literal "Unexpected character." ∧
    ∀ s : Nat, (scanToken [Char.ofNat 64] initScanner).1.start ≠ .inSrc s := by
  have h : (scanToken [Char.ofNat 64] initScanner).1.start =
      .literal "Unexpected character." := by
    simp [scanToken, skipWhitespace, peekAt, NUL, isAtEnd, isAlpha,
      isDigit, initScanner, errorToken]
  exact ⟨h, fun s hs => by rw [h] at hs; exact TokenStart.noConfusion hs⟩

/-- C7 amended: every token whose type is not ERROR carries a slice
view `(start, length)` lying inside the original source; ERROR tokens
instead borrow a static message string of their own length. -/
theorem scanToken_borrows (src : List Char) (sc : Scanner)
    (h : sc.current ≤ src.length) :
    tokenOk (scanToken src sc).1 src.length :=
  (scanToken_spec src sc h).2.2.2

/-- C7 amended witness at the source `var`. -/
theorem scanToken_borrows_witness :
    initScanner.current ≤
      ([Char.ofNat 118, Char.ofNat 97, Char.ofNat 114] : List Char).length ∧
    tokenOk (scanToken [Char.ofNat 118, Char.ofNat 97, Char.ofNat 114]
      initScanner).1 3 :=
  ⟨by decide,
   scanToken_borrows [Char.ofNat 118, Char.ofNat 97, Char.ofNat 114]
     initScanner (by decide)⟩

/-- C8: for a properly terminated string literal — an opening quote at
position `i` (after whitespace skipping), a closing quote at position
`j`, and no quote or NUL in between — the STRING token spans from the
opening quote through the closing quote inclusive: it starts at `i`
and its length is `j - i + 1`, both quote characters included. -/
theorem string_token_spans_quotes (src : List Char) (sc : Scanner)
    (i j : Nat)
    (hsw : (skipWhitespace src sc.current sc.line).1 = i)
    (hopen : peekAt src i = Char.ofNat 34)
    (hij : i < j)
    (hclose : peekAt src j = Char.ofNat 34)
    (hmid : ∀ k, k < j → i + 1 ≤ k →
      peekAt src k ≠ Char.ofNat 34 ∧ peekAt src k ≠ NUL) :
    (scanToken src sc).1.type = .STRING ∧
    (scanToken src sc).1.start = .inSrc i ∧
    (scanToken src sc).1.length = j - i + 1 ∧
    (scanToken src sc).2.current = j + 1 := by
  unfold scanToken
  rcases hsw2 : skipWhitespace src sc.current sc.line with ⟨cur, line⟩
  rw [hsw2] at hsw
  simp only at hsw
  subst hsw
  dsimp only
  rw [hopen]
  have hloop : (stringLoop src (cur + 1) line).1 = j :=
    stringLoop_exit src j (cur + 1) line (by omega) hmid hclose
  rcases hsl : stringLoop src (cur + 1) line with ⟨cur2, line2⟩
  rw [hsl] at hloop
  simp only at hloop
  subst hloop
  have hne : isAtEnd src cur2 = false := by
    simp only [isAtEnd, hclose]
    rfl
  simp [isAtEnd, isAlpha, isDigit, NUL, stringTok, hsl, hne, makeToken, hopen]
  rw [if_neg (by rw [hclose]; decide)]
  exact ⟨rfl, rfl, by show cur2 + 1 - cur = cur2 - cur + 1; omega, rfl⟩

/-- The four-character source `"hi"`: a quoted two-letter string. -/
def srcQuoted : List Char :=
  [Char.ofNat 34, Char.ofNat 104, Char.ofNat 105, Char.ofNat 34]

/-- C8 witness at the source `"hi"`. -/
theorem string_token_spans_quotes_witness :
    peekAt srcQuoted 0 = Char.ofNat 34 ∧ peekAt srcQuoted 3 = Char.ofNat 34 ∧
    ((scanToken srcQuoted initScanner).1.type = .STRING ∧
     (scanToken srcQuoted initScanner).1.start = .inSrc 0 ∧
     (scanToken srcQuoted initScanner).1.length = 3 - 0 + 1 ∧
     (scanToken srcQuoted initScanner).2.current = 3 + 1) :=
  ⟨by decide, by decide,
   string_token_spans_quotes srcQuoted initScanner 0 3
     (by simp [skipWhitespace, peekAt, NUL, srcQuoted, initScanner])
     (by decide) (by decide) (by decide) (by decide)⟩

/-- C10: `scanToken` returns exactly one token for every
NUL-terminated source and cursor within it (the function is total; its
Lean definition terminates by the very measure the C loops decrease,
the distance from the cursor to the terminator): the cursor never
moves backwards, never passes the end of the source, and strictly
advances for every token other than EOF. -/
theorem scanToken_total (src : List Char) (sc : Scanner)
    (h : sc.current ≤ src.length) :
    sc.current ≤ (scanToken src sc).2.current ∧
    (scanToken src sc).2.current ≤ src.length ∧
    ((scanToken src sc).1.type ≠ .EOF → sc.current < (scanToken src sc).2.current) :=
  ⟨(scanToken_spec src sc h).1, (scanToken_spec src sc h).2.1,
   (scanToken_spec src sc h).2.2.1⟩

/-- C10 witness at the source `var`. -/
theorem scanToken_total_witness :
    initScanner.current ≤
      ([Char.ofNat 118, Char.ofNat 97, Char.ofNat 114] : List Char).length ∧
    (initScanner.current ≤
      (scanToken [Char.ofNat 118, Char.ofNat 97, Char.ofNat 114]
        initScanner).2.current ∧
     (scanToken [Char.ofNat 118, Char.ofNat 97, Char.ofNat 114]
        initScanner).2.current ≤ 3 ∧
     ((scanToken [Char.ofNat 118, Char.ofNat 97, Char.ofNat 114]
        initScanner).1.type ≠ .EOF →
      initScanner.current <
        (scanToken [Char.ofNat 118, Char.ofNat 97, Char.ofNat 114]
          initScanner).2.current)) :=
  ⟨by decide,
   scanToken_total [Char.ofNat 118, Char.ofNat 97, Char.ofNat 114]
     initScanner (by decide)⟩

/-! ## The virtual machine: value model and object graph (vm.c)

IEEE-754 doubles are modelled by the rationals `CDouble := Rat`; the
claims proved below concern operand-type dispatch and the structural
effect of the opcodes, none of which depends on rounding, NaN or the
behaviour of division by zero.

Heap pointers are numeric ids; pointer identity is id equality.  The
hash table (`table.c`, not under src/) is
`Modelled from the spec:` section 4.3 gives its contract — a map from
interned strings to values whose `set` returns true exactly when the
key is newly inserted; keys are compared by pointer identity, which by
interning coincides with content identity, so keys are modelled by
their contents.  The string constructors (`object.c`, not under src/)
are `Modelled from the spec:` section 4.2 — `takeString` returns the
already-interned object when one with the same bytes exists. -/

/-- IEEE-754 doubles, modelled by the rationals. -/
abbrev CDouble := Rat

/-- value.h `Value`: nil, bool, number, or a reference to a heap
object (the id is the pointer). -/
inductive Value where
  | nil
  | bool (b : Bool)
  | number (n : CDouble)
  | obj (id : Nat)
deriving DecidableEq, Repr

/-- chunk.h `Chunk`: bytecode bytes, constant pool, line table. -/
structure Chunk where
  code : List Nat
  constants : List Value
  lines : List Nat
deriving DecidableEq, Repr

/-- object.h `ObjFunction`. -/
structure ObjFunction where
  arity : Nat
  upvalueCount : Nat
  name : Option String
  chunk : Chunk
deriving DecidableEq, Repr

/-- Where an upvalue's `location` field points: into the value stack
(an open upvalue) or at the upvalue's own `closed` field. -/
inductive UpvLoc where
  | stackSlot (i : Nat)
  | ownClosed
deriving DecidableEq, Repr

/-- The four native functions vm.c registers in `initVM`. -/
inductive NativeTag where
  | clockN
  | exitN
  | gcN
  | gcHeapSizeN
deriving DecidableEq, Repr

/-- object.h heap object variants.  A closure holds its function id
and one upvalue reference per upvalue (none models the NULL written by
`newClosure` before `OP_CLOSURE` fills the array).  An upvalue holds
its `location` and its `closed` field. -/
inductive Obj where
  | str (s : String)
  | fn (f : ObjFunction)
  | native (t : NativeTag)
  | closure (fnId : Nat) (upvalues : List (Option Nat))
  | upvalue (location : UpvLoc) (closed : Value)
  | klass (name : String) (methods : List (String × Value))
  | inst (klassId : Nat) (fields : List (String × Value))
  | boundMethod (receiver : Value) (methodId : Nat)
deriving DecidableEq, Repr

/-- vm.h `CallFrame`: closure, instruction pointer, and the frame's
base slot in the value stack (`slots`). -/
structure CallFrame where
  closureId : Nat
  ip : Nat
  slots : Nat
deriving DecidableEq, Repr

/-- vm.h `FRAMES_MAX`.  vm.h is not under src/;
`Modelled from the spec:` section 3 recommends 64. -/
def FRAMES_MAX : Nat := 64

/-- vm.h `VM`: the full interpreter state.  The stack grows towards
the end of the list, so `stackTop` is the list length; `frames` grows
the same way; `openUpvalues` lists heap ids of the open upvalues, head
first (the head is the list head in vm.c, highest stack address).
`stderrLog` records the runtime-error messages written to stderr and
`stdoutLog` the values printed by `OP_PRINT`. -/
structure VMState where
  stack : List Value
  frames : List CallFrame
  openUpvalues : List Nat
  heap : List (Nat × Obj)
  nextId : Nat
  globals : List (String × Value)
  strings : List (String × Nat)
  stderrLog : List String
  stdoutLog : List Value
  bytesAllocated : Nat
deriving DecidableEq, Repr

/-- Association-list lookup for the heap (pointer dereference). -/
def heapLookup : List (Nat × Obj) → Nat → Option Obj
  | [], _ => none
  | (k, v) :: rest, id => if k = id then some v else heapLookup rest id

/-- Association-list lookup for the intern table. -/
def strLookup : List (String × Nat) → String → Option Nat
  | [], _ => none
  | (k, v) :: rest, s => if k = s then some v else strLookup rest s

/-- Read a heap object by id (pointer dereference). -/
def heapGet (st : VMState) (id : Nat) : Option Obj :=
  heapLookup st.heap id

/-- Overwrite the heap object with id `id` (pointer write). -/
def heapSet (st : VMState) (id : Nat) (o : Obj) : VMState :=
  { st with heap := st.heap.map (fun p => if p.1 = id then (id, o) else p) }

/-- Allocate a fresh heap object, returning its id.  Byte accounting
is abstracted to a count of allocations; the collector itself
(memory.c, not under src/) has no observable effect on the claims
proved here and is not modelled. -/
def allocate (o : Obj) (st : VMState) : Nat × VMState :=
  (st.nextId,
   { st with heap := (st.nextId, o) :: st.heap, nextId := st.nextId + 1,
             bytesAllocated := st.bytesAllocated + 1 })

/-- table.c `tableGet`, modelled from the spec (section 4.3): keys by
interned-string content. -/
def tableGet (t : List (String × Value)) (k : String) : Option Value :=
  match t with
  | [] => none
  | (k2, v) :: rest => if k2 = k then some v else tableGet rest k

/-- table.c `tableSet`, modelled from the spec (section 4.3): returns
true exactly when the key is newly inserted. -/
def tableSet (t : List (String × Value)) (k : String) (v : Value) :
    Bool × List (String × Value) :=
  match tableGet t k with
  | some _ => (false, t.map (fun p => if p.1 = k then (k, v) else p))
  | none => (true, (k, v) :: t)

/-- table.c `tableDelete`, modelled from the spec (section 4.3):
removes the binding (the tombstone mechanics are unobservable at the
map level). -/
def tableDelete (t : List (String × Value)) (k : String) :
    List (String × Value) :=
  t.eraseP (fun p => p.1 == k)

/-- table.c `tableAddAll`, modelled from the spec (section 4.3): copy
every entry of `src` into `dst`. -/
def tableAddAll (src dst : List (String × Value)) :
    List (String × Value) :=
  src.foldl (fun acc p => (tableSet acc p.1 p.2).2) dst

/-- object.c `takeString` / the intern table, modelled from the spec
(section 4.2): if a string with these bytes is interned, return it;
otherwise allocate a new string object and intern it. -/
def takeString (s : String) (st : VMState) : Nat × VMState :=
  match strLookup st.strings s with
  | some id => (id, st)
  | none =>
    let (id, st1) := allocate (.str s) st
    (id, { st1 with strings := (s, id) :: st1.strings })

/-- object.c `copyString`, modelled from the spec (section 4.2): same
interning behaviour as `takeString` for the claims at hand (the two
differ only in the ownership of the C character buffer). -/
def copyString (s : String) (st : VMState) : Nat × VMState :=
  takeString s st

/-- vm.c `push`. -/
def pushVal (v : Value) (st : VMState) : VMState :=
  { st with stack := st.stack ++ [v] }

/-- vm.c `pop`; popping an empty stack is undefined behaviour in C and
is modelled as `none`. -/
def popVal (st : VMState) : Option (Value × VMState) :=
  match st.stack.getLast? with
  | some v => some (v, { st with stack := st.stack.dropLast })
  | none => none

/-- vm.c run's `DROP` macro. -/
def dropVal (st : VMState) : Option VMState :=
  match st.stack.getLast? with
  | some _ => some { st with stack := st.stack.dropLast }
  | none => none

/-- vm.c `peek(distance)` / the `PEEK`, `PEEK2` macros. -/
def peekVal (st : VMState) (distance : Nat) : Option Value :=
  st.stack.get? (st.stack.length - 1 - distance)

/-- vm.c run's `IS_STRING(v)` over the heap. -/
def isStringV (st : VMState) (v : Value) : Bool :=
  match v with
  | .obj id =>
    match heapGet st id with
    | some (.str _) => true
    | _ => false
  | _ => false

/-- value.h `IS_NUMBER`. -/
def isNumberV (v : Value) : Bool :=
  match v with
  | .number _ => true
  | _ => false

/-- vm.c `isFalsey`: nil and false are falsey, everything else truthy. -/
def isFalsey (v : Value) : Bool :=
  match v with
  | .nil => true
  | .bool b => !b
  | _ => false

/-- value.c `valuesEqual` (value.c is not under src/;
`Modelled from the spec:` section 3 — nil equals nil, booleans by
value, numbers by numeric equality, objects by pointer identity, and
different variants are never equal). -/
def valuesEqual (a b : Value) : Bool :=
  match a, b with
  | .nil, .nil => true
  | .bool x, .bool y => x == y
  | .number x, .number y => x == y
  | .obj x, .obj y => x == y
  | _, _ => false

/-- vm.c `resetStack`: empty the value stack, drop every frame, and
clear the open-upvalue list. -/
def resetStack (st : VMState) : VMState :=
  { st with stack := [], frames := [], openUpvalues := [] }

/-- vm.c `runtimeError`: write the message (and the stack trace, whose
text is elided here) to stderr, then `resetStack`. -/
def runtimeError (msg : String) (st : VMState) : VMState :=
  resetStack { st with stderrLog := st.stderrLog ++ [msg] }

/-! ## Upvalue capture and closing (vm.c lines 219-251) -/

/-- The stack address an open upvalue points at; `none` when the id is
not an open upvalue (dereferencing such an id in `captureUpvalue` or
`closeUpvalues` would be undefined behaviour in C). -/
def upvLocation (st : VMState) (id : Nat) : Option Nat :=
  match heapGet st id with
  | some (.upvalue (.stackSlot i) _) => some i
  | _ => none

/-- The stack address used by the `captureUpvalue` walk (default 0 is
never used under the open-list well-formedness invariant). -/
def locOf (st : VMState) (id : Nat) : Nat :=
  (upvLocation st id).getD 0

/-- object.c `newUpvalue`, modelled from the spec (glossary: an open
upvalue points at a live stack slot; its `closed` field starts nil). -/
def newUpvalue (slot : Nat) (st : VMState) : Nat × VMState :=
  allocate (.upvalue (.stackSlot slot) .nil) st

/-- The walk of vm.c `captureUpvalue`:
`while (upvalue != NULL && upvalue->location > local) { prev = upvalue; upvalue = upvalue->next; }`.
Splits the open list into the strictly-above prefix and the rest. -/
def captureScan (st : VMState) (localSlot : Nat) :
    List Nat → List Nat × List Nat
  | [] => ([], [])
  | id :: rest =>
    if locOf st id > localSlot then
      let (p, r) := captureScan st localSlot rest
      (id :: p, r)
    else ([], id :: rest)

/-- vm.c `captureUpvalue`: return the existing open upvalue at exactly
this stack slot if there is one, else allocate a fresh open upvalue
and splice it into the list at the scan position. -/
def captureUpvalue (st : VMState) (localSlot : Nat) : Nat × VMState :=
  let (pre, rest) := captureScan st localSlot st.openUpvalues
  match rest with
  | id :: _ =>
    if locOf st id = localSlot then (id, st)
    else
      let (nid, st1) := newUpvalue localSlot st
      (nid, { st1 with openUpvalues := pre ++ nid :: rest })
  | [] =>
    let (nid, st1) := newUpvalue localSlot st
    (nid, { st1 with openUpvalues := pre ++ nid :: rest })

/-- The value in stack slot `i` (`*location` of an open upvalue); a
read out of range is undefined behaviour in C, modelled by nil, and
never reached under the invariants assumed by the theorems below. -/
def stackVal (st : VMState) (i : Nat) : Value :=
  st.stack.getD i .nil

/-- vm.c `closeUpvalues` as a loop over the open list:
`while (vm.openUpvalues != NULL && vm.openUpvalues->location >= last)`
copy `*location` into `closed`, retarget `location` to the own
`closed` field, and unlink the head. -/
def closeUpvaluesGo (last : Nat) : List Nat → VMState → VMState
  | [], st => st
  | id :: rest, st =>
    match heapGet st id with
    | some (.upvalue (.stackSlot loc) _) =>
      if loc ≥ last then
        closeUpvaluesGo last rest
          { st with
            heap := (heapSet st id
              (.upvalue .ownClosed (stackVal st loc))).heap,
            openUpvalues := rest }
      else st
    | _ => st

/-- vm.c `closeUpvalues last`. -/
def closeUpvalues (last : Nat) (st : VMState) : VMState :=
  closeUpvaluesGo last st.openUpvalues st

/-! ## Heap update lemmas -/

theorem lookup_update_ne (heap : List (Nat × Obj)) (id id2 : Nat) (o : Obj)
    (h : id2 ≠ id) :
    heapLookup (heap.map (fun p => if p.1 = id then (id, o) else p)) id2 =
      heapLookup heap id2 := by
  induction heap with
  | nil => rfl
  | cons p rest ih =>
    rcases p with ⟨k, v⟩
    simp only [List.map_cons]
    by_cases hk : k = id
    · subst hk
      have hhead : (if (k, v).1 = k then (k, o) else (k, v)) = (k, o) :=
        if_pos rfl
      rw [hhead]
      simp only [heapLookup]
      rw [if_neg (fun hh => h hh.symm), if_neg (fun hh => h hh.symm), ih]
    · have hhead : (if (k, v).1 = id then (id, o) else (k, v)) = (k, v) :=
        if_neg hk
      rw [hhead]
      simp only [heapLookup]
      by_cases hk2 : k = id2
      · rw [if_pos hk2, if_pos hk2]
      · rw [if_neg hk2, if_neg hk2, ih]

theorem lookup_update_self (heap : List (Nat × Obj)) (id : Nat) (o : Obj)
    (h : (heapLookup heap id).isSome) :
    heapLookup (heap.map (fun p => if p.1 = id then (id, o) else p)) id =
      some o := by
  induction heap with
  | nil => simp [heapLookup] at h
  | cons p rest ih =>
    rcases p with ⟨k, v⟩
    simp only [List.map_cons]
    by_cases hk : k = id
    · subst hk
      have hhead : (if (k, v).1 = k then (k, o) else (k, v)) = (k, o) :=
        if_pos rfl
      rw [hhead]
      simp [heapLookup]
    · have hhead : (if (k, v).1 = id then (id, o) else (k, v)) = (k, v) :=
        if_neg hk
      rw [hhead]
      simp only [heapLookup] at h ⊢
      rw [if_neg hk] at h ⊢
      exact ih h

theorem heapGet_heapSet_ne (st : VMState) (id id2 : Nat) (o : Obj)
    (h : id2 ≠ id) : heapGet (heapSet st id o) id2 = heapGet st id2 :=
  lookup_update_ne st.heap id id2 o h

theorem heapGet_heapSet_self (st : VMState) (id : Nat) (o : Obj)
    (h : (heapGet st id).isSome) : heapGet (heapSet st id o) id = some o :=
  lookup_update_self st.heap id o h

theorem upvLocation_heapSet_ne (st : VMState) (id id2 : Nat) (o : Obj)
    (h : id2 ≠ id) :
    upvLocation (heapSet st id o) id2 = upvLocation st id2 := by
  unfold upvLocation
  rw [heapGet_heapSet_ne st id id2 o h]

theorem locOf_heapSet_ne (st : VMState) (id id2 : Nat) (o : Obj)
    (h : id2 ≠ id) : locOf (heapSet st id o) id2 = locOf st id2 := by
  unfold locOf
  rw [upvLocation_heapSet_ne st id id2 o h]

/-! ## The capture walk -/

theorem captureScan_spec (st : VMState) (l : Nat) (xs : List Nat) :
    (captureScan st l xs).1 ++ (captureScan st l xs).2 = xs ∧
    (∀ id ∈ (captureScan st l xs).1, locOf st id > l) ∧
    (∀ id rest2, (captureScan st l xs).2 = id :: rest2 →
      ¬ locOf st id > l) := by
  induction xs with
  | nil => exact ⟨rfl, by simp [captureScan], by simp [captureScan]⟩
  | cons a xs ih =>
    by_cases hgt : locOf st a > l
    · have heq : captureScan st l (a :: xs) =
          (a :: (captureScan st l xs).1, (captureScan st l xs).2) := by
        simp [captureScan, hgt]
      rw [heq]
      refine ⟨by simpa using ih.1, ?_, ?_⟩
      · intro id hid
        rcases List.mem_cons.1 hid with hid | hid
        · subst hid; exact hgt
        · exact ih.2.1 id hid
      · exact ih.2.2
    · have heq : captureScan st l (a :: xs) = ([], a :: xs) := by
        simp [captureScan, hgt]
      rw [heq]
      refine ⟨rfl, by simp, ?_⟩
      intro id rest2 hr
      simp only at hr
      rw [List.cons.injEq] at hr
      rw [← hr.1]
      exact hgt

/-- After an allocation every id below the previous allocation
counter resolves exactly as before. -/
theorem locOf_alloc (st : VMState) (o : Obj) (id : Nat)
    (h : id < st.nextId) :
    locOf { st with heap := (st.nextId, o) :: st.heap,
                    nextId := st.nextId + 1,
                    bytesAllocated := st.bytesAllocated + 1 } id =
      locOf st id := by
  simp only [locOf, upvLocation, heapGet, heapLookup]
  rw [if_neg (by omega)]

theorem upvLocation_alloc (st : VMState) (o : Obj) (id : Nat)
    (h : id < st.nextId) :
    upvLocation { st with heap := (st.nextId, o) :: st.heap,
                          nextId := st.nextId + 1,
                          bytesAllocated := st.bytesAllocated + 1 } id =
      upvLocation st id := by
  simp only [upvLocation, heapGet, heapLookup]
  rw [if_neg (by omega)]

/-- C3: for every stack slot, `captureUpvalue` returns the existing
open upvalue when one with exactly that location is on the
open-upvalue list, pointer-identically and without changing the
state; otherwise it allocates a fresh open upvalue at that slot and
splices it in so that the list holds exactly the old upvalues plus the
new one and remains strictly sorted by stack address, highest first —
which also gives at most one open upvalue per stack slot.  The
hypotheses are the open-list invariants of vm.c: every listed id is an
open upvalue, the list is strictly descending by location, and every
listed id was previously allocated. -/
theorem captureUpvalue_spec (st : VMState) (localSlot : Nat)
    (hopen : ∀ id ∈ st.openUpvalues, (upvLocation st id).isSome)
    (hsorted : st.openUpvalues.Pairwise
      (fun a b => locOf st a > locOf st b))
    (hfresh : ∀ id ∈ st.openUpvalues, id < st.nextId) :
    (∀ id0 ∈ st.openUpvalues, upvLocation st id0 = some localSlot →
       captureUpvalue st localSlot = (id0, st)) ∧
    ((∀ id ∈ st.openUpvalues, upvLocation st id ≠ some localSlot) →
       upvLocation (captureUpvalue st localSlot).2
           (captureUpvalue st localSlot).1 = some localSlot ∧
       (∀ id, id ∈ (captureUpvalue st localSlot).2.openUpvalues ↔
          (id = (captureUpvalue st localSlot).1 ∨ id ∈ st.openUpvalues)) ∧
       (captureUpvalue st localSlot).2.openUpvalues.Pairwise
         (fun a b => locOf (captureUpvalue st localSlot).2 a >
                     locOf (captureUpvalue st localSlot).2 b)) := by
  obtain ⟨hpart, hpre, hhead⟩ := captureScan_spec st localSlot st.openUpvalues
  rcases hscan : captureScan st localSlot st.openUpvalues with ⟨pre, rest⟩
  rw [hscan] at hpart hpre hhead
  simp only at hpart hpre hhead
  have hpair : (pre ++ rest).Pairwise (fun a b => locOf st a > locOf st b) := by
    rw [hpart]; exact hsorted
  rw [List.pairwise_append] at hpair
  constructor
  · -- the sharing case: an open upvalue at exactly this slot exists
    intro id0 hid0 hloc0
    have hloceq : locOf st id0 = localSlot := by
      unfold locOf; rw [hloc0]; rfl
    have hid0r : id0 ∈ pre ++ rest := by rw [hpart]; exact hid0
    have hid0rest : id0 ∈ rest := by
      rcases List.mem_append.1 hid0r with h1 | h1
      · have := hpre id0 h1; omega
      · exact h1
    cases rest with
    | nil => simp at hid0rest
    | cons hd tl =>
      have hid0hd : id0 = hd := by
        rcases List.mem_cons.1 hid0rest with h1 | h1
        · exact h1
        · exfalso
          have hgt := (List.pairwise_cons.1 hpair.2.1).1 id0 h1
          have hnothd := hhead hd tl rfl
          omega
      subst hid0hd
      unfold captureUpvalue
      rw [hscan]
      simp only
      rw [if_pos hloceq]
  · -- the fresh case: no open upvalue at this slot
    intro hnone
    have hnoth : ∀ hd tl, rest = hd :: tl → ¬ locOf st hd = localSlot := by
      intro hd tl hr hc
      have hhd : hd ∈ st.openUpvalues := by
        rw [← hpart, hr]; simp
      have hiss := hopen hd hhd
      rcases hu : upvLocation st hd with _ | i
      · rw [hu] at hiss; simp at hiss
      · have hlo : locOf st hd = i := by unfold locOf; rw [hu]; rfl
        exact hnone hd hhd (by rw [hu, hlo.symm.trans hc])
    have hcap : captureUpvalue st localSlot =
        (st.nextId,
         { st with
           heap := (st.nextId,
             Obj.upvalue (.stackSlot localSlot) .nil) :: st.heap,
           nextId := st.nextId + 1,
           bytesAllocated := st.bytesAllocated + 1,
           openUpvalues := pre ++ st.nextId :: rest }) := by
      unfold captureUpvalue
      rw [hscan]
      cases rest with
      | nil => rfl
      | cons hd tl =>
        simp only
        rw [if_neg (hnoth hd tl rfl)]
        rfl
    rw [hcap]
    simp only
    have htrans : ∀ x, x < st.nextId →
        locOf { st with
          heap := (st.nextId,
            Obj.upvalue (.stackSlot localSlot) .nil) :: st.heap,
          nextId := st.nextId + 1,
          bytesAllocated := st.bytesAllocated + 1,
          openUpvalues := pre ++ st.nextId :: rest } x = locOf st x := by
      intro x hx
      simp only [locOf, upvLocation, heapGet, heapLookup]
      rw [if_neg (by omega)]
    have hmemlt : ∀ x, x ∈ pre ++ rest → x < st.nextId := by
      intro x hx
      exact hfresh x (by rw [← hpart]; exact hx)
    have hnidloc : locOf { st with
        heap := (st.nextId,
          Obj.upvalue (.stackSlot localSlot) .nil) :: st.heap,
        nextId := st.nextId + 1,
        bytesAllocated := st.bytesAllocated + 1,
        openUpvalues := pre ++ st.nextId :: rest } st.nextId = localSlot := by
      simp [locOf, upvLocation, heapGet, heapLookup]
    have hrestlt : ∀ b ∈ rest, locOf st b < localSlot := by
      intro b hb
      cases rest with
      | nil => simp at hb
      | cons hd tl =>
        have hhdle : ¬ locOf st hd > localSlot := hhead hd tl rfl
        have hhdne := hnoth hd tl rfl
        rcases List.mem_cons.1 hb with h1 | h1
        · subst h1; omega
        · have := (List.pairwise_cons.1 hpair.2.1).1 b h1
          omega
    refine ⟨?_, ?_, ?_⟩
    · simp [upvLocation, heapGet, heapLookup]
    · intro id
      rw [← hpart]
      simp only [List.mem_append, List.mem_cons]
      tauto
    · rw [List.pairwise_append]
      refine ⟨?_, ?_, ?_⟩
      · refine hpair.1.imp_of_mem ?_
        intro a b ha hb hab
        rw [htrans a (hmemlt a (List.mem_append_left _ ha)),
            htrans b (hmemlt b (List.mem_append_left _ hb))]
        exact hab
      · rw [List.pairwise_cons]
        constructor
        · intro b hb
          rw [hnidloc, htrans b (hmemlt b (List.mem_append_right _ hb))]
          exact hrestlt b hb
        · refine hpair.2.1.imp_of_mem ?_
          intro a b ha hb hab
          rw [htrans a (hmemlt a (List.mem_append_right _ ha)),
              htrans b (hmemlt b (List.mem_append_right _ hb))]
          exact hab
      · intro a ha b hb
        have ha2 := htrans a (hmemlt a (List.mem_append_left _ ha))
        have hagt := hpre a ha
        rcases List.mem_cons.1 hb with h1 | h1
        · subst h1
          rw [ha2, hnidloc]
          omega
        · rw [ha2, htrans b (hmemlt b (List.mem_append_right _ h1))]
          exact hpair.2.2 a ha b h1

/-! ## Closing upvalues -/

theorem closeUpvaluesGo_spec (last : Nat) :
    ∀ (xs : List Nat) (st : VMState), st.openUpvalues = xs →
      (∀ id ∈ xs, (upvLocation st id).isSome) →
      xs.Pairwise (fun a b => locOf st a > locOf st b) →
      xs.Nodup →
      ((closeUpvaluesGo last xs st).stack = st.stack ∧
       (∀ id ∈ (closeUpvaluesGo last xs st).openUpvalues, id ∈ xs) ∧
       (∀ id, id ∉ xs →
          heapGet (closeUpvaluesGo last xs st) id = heapGet st id) ∧
       (∀ id ∈ (closeUpvaluesGo last xs st).openUpvalues,
          ∃ i, upvLocation (closeUpvaluesGo last xs st) id = some i ∧
            i < last) ∧
       (∀ id ∈ xs, id ∉ (closeUpvaluesGo last xs st).openUpvalues →
          ∃ i, upvLocation st id = some i ∧ last ≤ i ∧
            heapGet (closeUpvaluesGo last xs st) id =
              some (.upvalue .ownClosed (stackVal st i)))) := by
  intro xs
  induction xs with
  | nil =>
    intro st hops hopen hpair hnd
    refine ⟨rfl, ?_, fun id _ => rfl, ?_, ?_⟩
    · intro id hid
      exact hops ▸ hid
    · intro id hid
      rw [show closeUpvaluesGo last [] st = st from rfl] at hid
      rw [hops] at hid
      simp at hid
    · intro id hid
      simp at hid
  | cons a xs ih =>
    intro st hops hopen hpair hnd
    have haopen := hopen a (by simp)
    rcases hu : upvLocation st a with _ | loc
    · rw [hu] at haopen; simp at haopen
    have hheap : ∃ c, heapGet st a = some (.upvalue (.stackSlot loc) c) := by
      unfold upvLocation at hu
      rcases hg : heapGet st a with _ | o
      · rw [hg] at hu; simp at hu
      · rw [hg] at hu
        cases o with
        | upvalue l c =>
          cases l with
          | stackSlot i =>
            simp only at hu
            rw [Option.some_inj] at hu
            exact ⟨c, by rw [hu]⟩
          | ownClosed => simp at hu
        | str s => simp at hu
        | fn f => simp at hu
        | native t => simp at hu
        | closure f u => simp at hu
        | klass n m => simp at hu
        | inst k f => simp at hu
        | boundMethod r m => simp at hu
    rcases hheap with ⟨c, hg⟩
    have hanotxs : a ∉ xs := (List.nodup_cons.1 hnd).1
    have hgo : closeUpvaluesGo last (a :: xs) st =
        if loc ≥ last then
          closeUpvaluesGo last xs
            { st with
              heap := (heapSet st a
                (.upvalue .ownClosed (stackVal st loc))).heap,
              openUpvalues := xs }
        else st := by
      simp only [closeUpvaluesGo]
      rw [hg]
    by_cases hge : loc ≥ last
    · rw [hgo, if_pos hge]
      set st2 : VMState :=
        { st with
          heap := (heapSet st a
            (.upvalue .ownClosed (stackVal st loc))).heap,
          openUpvalues := xs } with hst2
      have hupv2 : ∀ id, id ≠ a → upvLocation st2 id = upvLocation st id := by
        intro id hid
        exact upvLocation_heapSet_ne st a id
          (.upvalue .ownClosed (stackVal st loc)) hid
      have hloc2 : ∀ id, id ≠ a → locOf st2 id = locOf st id := by
        intro id hid
        unfold locOf
        rw [hupv2 id hid]
      have hopen2 : ∀ id ∈ xs, (upvLocation st2 id).isSome := by
        intro id hid
        rw [hupv2 id (fun hh => hanotxs (hh ▸ hid))]
        exact hopen id (List.mem_cons_of_mem a hid)
      have hpair2 : xs.Pairwise (fun x y => locOf st2 x > locOf st2 y) := by
        refine ((List.pairwise_cons.1 hpair).2).imp_of_mem ?_
        intro x y hx hy hxy
        rw [hloc2 x (fun hh => hanotxs (hh ▸ hx)),
            hloc2 y (fun hh => hanotxs (hh ▸ hy))]
        exact hxy
      obtain ⟨ihstack, ihsub, ihout, ihA, ihB⟩ :=
        ih st2 rfl hopen2 hpair2 (List.nodup_cons.1 hnd).2
      refine ⟨ihstack, ?_, ?_, ihA, ?_⟩
      · intro id hid
        exact List.mem_cons_of_mem a (ihsub id hid)
      · intro id hid
        have hidx : id ∉ xs := fun hh => hid (List.mem_cons_of_mem a hh)
        have hida : id ≠ a := fun hh => hid (hh ▸ List.mem_cons_self a xs)
        rw [ihout id hidx]
        exact heapGet_heapSet_ne st a id
          (.upvalue .ownClosed (stackVal st loc)) hida
      · intro id hid hnotin
        rcases List.mem_cons.1 hid with h1 | h1
        · subst h1
          refine ⟨loc, hu, hge, ?_⟩
          rw [ihout id hanotxs]
          exact heapGet_heapSet_self st id
            (.upvalue .ownClosed (stackVal st loc)) (by rw [hg]; rfl)
        · obtain ⟨i, hupv, hge2, hclosed⟩ := ihB id h1 hnotin
          have hida : id ≠ a := fun hh => hanotxs (hh ▸ h1)
          refine ⟨i, ?_, hge2, hclosed⟩
          rw [← hupv2 id hida]
          exact hupv
    · rw [hgo, if_neg hge]
      have hloca : locOf st a = loc := by unfold locOf; rw [hu]; rfl
      refine ⟨rfl, ?_, fun id _ => rfl, ?_, ?_⟩
      · intro id hid
        exact hops ▸ hid
      · intro id hid
        rw [hops] at hid
        rcases List.mem_cons.1 hid with h1 | h1
        · subst h1
          exact ⟨loc, hu, by omega⟩
        · have hidopen := hopen id (List.mem_cons_of_mem a h1)
          rcases hui : upvLocation st id with _ | i
          · rw [hui] at hidopen; simp at hidopen
          · have hlocid : locOf st id = i := by unfold locOf; rw [hui]; rfl
            have hcomp := (List.pairwise_cons.1 hpair).1 id h1
            exact ⟨i, rfl, by omega⟩
      · intro id hid hnotin
        rw [hops] at hnotin
        exact absurd hid hnotin

/-- C4: for every stack pointer `last`, after `closeUpvalues last` no
upvalue left on the open-upvalue list has a location at or above
`last`, and every upvalue removed from the list has had the value at
its stack slot (`*location`) copied into its `closed` field, with
`location` retargeted to point at that own `closed` field.  The
hypotheses are the open-list invariants of vm.c: every listed id is an
open upvalue, the list is strictly descending by stack address, and no
id is listed twice. -/
theorem closeUpvalues_spec (st : VMState) (last : Nat)
    (hopen : ∀ id ∈ st.openUpvalues, (upvLocation st id).isSome)
    (hsorted : st.openUpvalues.Pairwise
      (fun a b => locOf st a > locOf st b))
    (hnodup : st.openUpvalues.Nodup) :
    (∀ id ∈ (closeUpvalues last st).openUpvalues,
       ∃ i, upvLocation (closeUpvalues last st) id = some i ∧ i < last) ∧
    (∀ id ∈ st.openUpvalues, id ∉ (closeUpvalues last st).openUpvalues →
       ∃ i, upvLocation st id = some i ∧ last ≤ i ∧
         heapGet (closeUpvalues last st) id =
           some (.upvalue .ownClosed (stackVal st i))) := by
  obtain ⟨_, _, _, hA, hB⟩ :=
    closeUpvaluesGo_spec last st.openUpvalues st rfl hopen hsorted hnodup
  exact ⟨hA, hB⟩

/-- A concrete VM state with two open upvalues, at stack slots 5 and
2, used by the upvalue witnesses. -/
def stUpv : VMState :=
  { stack := [.number 10, .number 11, .number 12, .number 13,
              .number 14, .number 15],
    frames := [],
    openUpvalues := [0, 1],
    heap := [(0, .upvalue (.stackSlot 5) .nil),
             (1, .upvalue (.stackSlot 2) .nil)],
    nextId := 2,
    globals := [], strings := [], stderrLog := [], stdoutLog := [],
    bytesAllocated := 2 }

/-- C3 witness: capturing stack slot 3 of `stUpv` (no open upvalue
there) allocates a fresh open upvalue and splices it in, keeping the
list sorted. -/
theorem captureUpvalue_spec_witness :
    (∀ id ∈ stUpv.openUpvalues, (upvLocation stUpv id).isSome) ∧
    (upvLocation (captureUpvalue stUpv 3).2 (captureUpvalue stUpv 3).1 =
        some 3 ∧
     (∀ id, id ∈ (captureUpvalue stUpv 3).2.openUpvalues ↔
        (id = (captureUpvalue stUpv 3).1 ∨ id ∈ stUpv.openUpvalues)) ∧
     (captureUpvalue stUpv 3).2.openUpvalues.Pairwise
       (fun a b => locOf (captureUpvalue stUpv 3).2 a >
                   locOf (captureUpvalue stUpv 3).2 b)) :=
  ⟨by decide,
   (captureUpvalue_spec stUpv 3 (by decide) (by decide) (by decide)).2
     (by decide)⟩

/-- C4 witness: closing from stack slot 3 of `stUpv` closes the
upvalue at slot 5 and keeps the one at slot 2 open. -/
theorem closeUpvalues_spec_witness :
    (∀ id ∈ stUpv.openUpvalues, (upvLocation stUpv id).isSome) ∧
    ((∀ id ∈ (closeUpvalues 3 stUpv).openUpvalues,
        ∃ i, upvLocation (closeUpvalues 3 stUpv) id = some i ∧ i < 3) ∧
     (∀ id ∈ stUpv.openUpvalues,
        id ∉ (closeUpvalues 3 stUpv).openUpvalues →
        ∃ i, upvLocation stUpv id = some i ∧ 3 ≤ i ∧
          heapGet (closeUpvalues 3 stUpv) id =
            some (.upvalue .ownClosed (stackVal stUpv i)))) :=
  ⟨by decide,
   closeUpvalues_spec stUpv 3 (by decide) (by decide) (by decide)⟩

/-! ## The dispatch loop (vm.c `run`)

The opcode enumeration comes from `opcodes.h`, which is not under
src/; the numbering below follows the order of the `CASE_CODE` blocks
in vm.c `run`.  No claim depends on the concrete numbering.  The
cached frame registers (`LOAD_FRAME`/`STORE_FRAME`) are a performance
detail of the C dispatch loop; the embedding reads and writes the
heap-resident frame directly, which is observationally the same
because the stack-trace text that stale `ip` values could influence is
elided from the error log. -/

inductive OpCode where
  | CONSTANT | NIL | TRUE | FALSE | POP
  | GET_LOCAL | SET_LOCAL | GET_GLOBAL | DEFINE_GLOBAL | SET_GLOBAL
  | GET_UPVALUE | SET_UPVALUE | GET_PROPERTY | SET_PROPERTY | GET_SUPER
  | EQUAL | GREATER | LESS
  | ADD | SUBTRACT | MULTIPLY | DIVIDE
  | NOT | NEGATE | PRINT
  | JUMP | JUMP_IF_FALSE | LOOP
  | CALL | INVOKE | SUPER_INVOKE
  | CLOSURE | CLOSE_UPVALUE | RETURN
  | CLASS | INHERIT | METHOD
deriving DecidableEq, Repr

/-- The byte of an opcode (opcodes.h numbering as described above). -/
def OpCode.toByte : OpCode → Nat
  | .CONSTANT => 0 | .NIL => 1 | .TRUE => 2 | .FALSE => 3 | .POP => 4
  | .GET_LOCAL => 5 | .SET_LOCAL => 6 | .GET_GLOBAL => 7
  | .DEFINE_GLOBAL => 8 | .SET_GLOBAL => 9
  | .GET_UPVALUE => 10 | .SET_UPVALUE => 11 | .GET_PROPERTY => 12
  | .SET_PROPERTY => 13 | .GET_SUPER => 14
  | .EQUAL => 15 | .GREATER => 16 | .LESS => 17
  | .ADD => 18 | .SUBTRACT => 19 | .MULTIPLY => 20 | .DIVIDE => 21
  | .NOT => 22 | .NEGATE => 23 | .PRINT => 24
  | .JUMP => 25 | .JUMP_IF_FALSE => 26 | .LOOP => 27
  | .CALL => 28 | .INVOKE => 29 | .SUPER_INVOKE => 30
  | .CLOSURE => 31 | .CLOSE_UPVALUE => 32 | .RETURN => 33
  | .CLASS => 34 | .INHERIT => 35 | .METHOD => 36

/-- Decode a byte to an opcode; a byte that is no opcode is undefined
behaviour of the C dispatch (`stuck` below). -/
def OpCode.ofByte : Nat → Option OpCode
  | 0 => some .CONSTANT | 1 => some .NIL | 2 => some .TRUE
  | 3 => some .FALSE | 4 => some .POP
  | 5 => some .GET_LOCAL | 6 => some .SET_LOCAL | 7 => some .GET_GLOBAL
  | 8 => some .DEFINE_GLOBAL | 9 => some .SET_GLOBAL
  | 10 => some .GET_UPVALUE | 11 => some .SET_UPVALUE
  | 12 => some .GET_PROPERTY | 13 => some .SET_PROPERTY
  | 14 => some .GET_SUPER
  | 15 => some .EQUAL | 16 => some .GREATER | 17 => some .LESS
  | 18 => some .ADD | 19 => some .SUBTRACT | 20 => some .MULTIPLY
  | 21 => some .DIVIDE
  | 22 => some .NOT | 23 => some .NEGATE | 24 => some .PRINT
  | 25 => some .JUMP | 26 => some .JUMP_IF_FALSE | 27 => some .LOOP
  | 28 => some .CALL | 29 => some .INVOKE | 30 => some .SUPER_INVOKE
  | 31 => some .CLOSURE | 32 => some .CLOSE_UPVALUE | 33 => some .RETURN
  | 34 => some .CLASS | 35 => some .INHERIT | 36 => some .METHOD
  | _ => none

/-- Control flow out of an opcode handler other than `OP_RETURN`.
`rtErr` records that `runtimeError(msg)` is called and the dispatch
loop returns `INTERPRET_RUNTIME_ERROR`; `halt` is the process exit of
the `exit` native; `stuck` is C undefined behaviour. -/
inductive NFlow where
  | next (st : VMState)
  | rtErr (msg : String) (st : VMState)
  | halt (st : VMState)
  | stuck
deriving DecidableEq, Repr

/-- Control flow out of one opcode, `OP_RETURN` included: `retOk` is
`return INTERPRET_OK`. -/
inductive Flow where
  | next (st : VMState)
  | retOk (st : VMState)
  | rtErr (msg : String) (st : VMState)
  | halt (st : VMState)
  | stuck
deriving DecidableEq, Repr

def NFlow.toFlow : NFlow → Flow
  | .next st => .next st
  | .rtErr m st => .rtErr m st
  | .halt st => .halt st
  | .stuck => .stuck

/-- A single-quote character, used in runtime-error message texts. -/
def sq : String := (Char.ofNat 39).toString

/-- The frame the dispatch loop runs in (the top of the frame stack). -/
def curFrame (st : VMState) : Option CallFrame := st.frames.getLast?

/-- The function of the running frame (`frame->closure->function`). -/
def frameFn (st : VMState) : Option ObjFunction :=
  match curFrame st with
  | some fr =>
    match heapGet st fr.closureId with
    | some (.closure fnId _) =>
      match heapGet st fnId with
      | some (.fn f) => some f
      | _ => none
    | _ => none
  | none => none

/-- Store a new instruction pointer into the running frame. -/
def setIp (st : VMState) (ip : Nat) : VMState :=
  { st with frames := st.frames.dropLast ++
      (match st.frames.getLast? with
       | some fr => [{ fr with ip := ip }]
       | none => []) }

/-- vm.c run's `READ_BYTE()`. -/
def readByte (st : VMState) : Option (Nat × VMState) :=
  match curFrame st, frameFn st with
  | some fr, some f =>
    match f.chunk.code.get? fr.ip with
    | some b => some (b, setIp st (fr.ip + 1))
    | none => none
  | _, _ => none

/-- vm.c run's `READ_SHORT()`: two bytes, big-endian. -/
def readShort (st : VMState) : Option (Nat × VMState) :=
  match readByte st with
  | some (hi, st1) =>
    match readByte st1 with
    | some (lo, st2) => some (hi * 256 + lo, st2)
    | none => none
  | none => none

/-- vm.c run's `READ_CONSTANT()`. -/
def readConstant (st : VMState) : Option (Value × VMState) :=
  match readByte st with
  | some (b, st1) =>
    match frameFn st1 with
    | some f =>
      match f.chunk.constants.get? b with
      | some v => some (v, st1)
      | none => none
    | none => none
  | none => none

/-- vm.c run's `READ_STRING()` (`AS_STRING(READ_CONSTANT())`). -/
def readString (st : VMState) : Option (String × VMState) :=
  match readConstant st with
  | some (.obj id, st1) =>
    match heapGet st1 id with
    | some (.str s) => some (s, st1)
    | _ => none
  | _ => none

/-- Overwrite stack slot `i` (a write through a stack pointer). -/
def setStackAt (st : VMState) (i : Nat) (v : Value) : VMState :=
  { st with stack := st.stack.set i v }

/-- vm.c `call`: arity check, frame-overflow check, push a frame whose
`slots` points at the callee. -/
def call (closureId argCount : Nat) (st : VMState) : NFlow :=
  match heapGet st closureId with
  | some (.closure fnId _) =>
    match heapGet st fnId with
    | some (.fn f) =>
      if argCount ≠ f.arity then
        .rtErr ("Expected " ++ toString f.arity ++ " arguments but got " ++
                toString argCount ++ ".") st
      else if st.frames.length = FRAMES_MAX then
        .rtErr "Stack overflow." st
      else
        .next { st with frames := st.frames ++
          [⟨closureId, 0, st.stack.length - argCount - 1⟩] }
    | _ => .stuck
  | _ => .stuck

/-- The result value of a native call.  `clock()` reads the process
clock, an effect outside the model: its result is modelled as 0 and is
not observed by any claim.  `collectGarbage` is modelled as a no-op,
so the `gc` native returns `before - after = 0`. -/
def nativeResult (tag : NativeTag) (st : VMState) : Value :=
  match tag with
  | .clockN => .number 0
  | .exitN => .nil
  | .gcN => .number ((st.bytesAllocated : CDouble) -
                     (st.bytesAllocated : CDouble))
  | .gcHeapSizeN => .number (st.bytesAllocated : CDouble)

/-- vm.c `callValue`. -/
def callValue (callee : Value) (argCount : Nat) (st : VMState) : NFlow :=
  match callee with
  | .obj id =>
    match heapGet st id with
    | some (.boundMethod receiver methodId) =>
      call methodId argCount
        (setStackAt st (st.stack.length - argCount - 1) receiver)
    | some (.klass _ methods) =>
      let (instId, st1) := allocate (.inst id []) st
      let st2 := setStackAt st1 (st1.stack.length - argCount - 1)
        (.obj instId)
      match tableGet methods "init" with
      | some initializer =>
        match initializer with
        | .obj iid => call iid argCount st2
        | _ => .stuck
      | none =>
        if argCount ≠ 0 then
          .rtErr ("Expected 0 arguments but got " ++
                  toString argCount ++ ".") st2
        else .next st2
    | some (.closure _ _) => call id argCount st
    | some (.native tag) =>
      match tag with
      | .exitN => .halt st
      | _ =>
        if argCount + 1 ≤ st.stack.length then
          .next (pushVal (nativeResult tag st)
            { st with stack := st.stack.take (st.stack.length - (argCount + 1)) })
        else .stuck
    | _ => .rtErr "Can only call functions and classes." st
  | _ => .rtErr "Can only call functions and classes." st

/-- vm.c `invokeFromClass`. -/
def invokeFromClass (klassId : Nat) (name : String) (argCount : Nat)
    (st : VMState) : NFlow :=
  match heapGet st klassId with
  | some (.klass _ methods) =>
    match tableGet methods name with
    | none => .rtErr ("Undefined property " ++ sq ++ name ++ sq ++ ".") st
    | some m =>
      match m with
      | .obj mid => call mid argCount st
      | _ => .stuck
  | _ => .stuck

/-- vm.c `invoke`. -/
def invoke (name : String) (argCount : Nat) (st : VMState) : NFlow :=
  match peekVal st argCount with
  | some (.obj rid) =>
    match heapGet st rid with
    | some (.inst klassId fields) =>
      match tableGet fields name with
      | some value =>
        callValue value argCount
          (setStackAt st (st.stack.length - argCount - 1) value)
      | none => invokeFromClass klassId name argCount st
    | _ => .rtErr "Only instances have methods." st
  | some _ => .rtErr "Only instances have methods." st
  | none => .stuck

/-- vm.c `bindMethod`. -/
def bindMethod (klassId : Nat) (name : String) (st : VMState) : NFlow :=
  match heapGet st klassId with
  | some (.klass _ methods) =>
    match tableGet methods name with
    | none => .rtErr ("Undefined property " ++ sq ++ name ++ sq ++ ".") st
    | some m =>
      match peekVal st 0, m with
      | some recv, .obj mid =>
        let (bid, st1) := allocate (.boundMethod recv mid) st
        match popVal st1 with
        | some (_, st2) => .next (pushVal (.obj bid) st2)
        | none => .stuck
      | _, _ => .stuck
  | _ => .stuck

/-- vm.c `defineMethod`. -/
def defineMethod (name : String) (st : VMState) : NFlow :=
  match peekVal st 0, peekVal st 1 with
  | some method, some (.obj kid) =>
    match heapGet st kid with
    | some (.klass kname methods) =>
      let st1 := heapSet st kid
        (.klass kname (tableSet methods name method).2)
      match popVal st1 with
      | some (_, st2) => .next st2
      | none => .stuck
    | _ => .stuck
  | _, _ => .stuck

/-- vm.c `concatenate`: peek both strings, build the concatenation,
intern it with `takeString`, pop both operands and push the result. -/
def concatenate (st : VMState) : Option VMState :=
  match peekVal st 0, peekVal st 1 with
  | some (.obj bid), some (.obj aid) =>
    match heapGet st bid, heapGet st aid with
    | some (.str bs), some (.str as2) =>
      let (rid, st1) := takeString (as2 ++ bs) st
      match popVal st1 with
      | some (_, st2) =>
        match popVal st2 with
        | some (_, st3) => some (pushVal (.obj rid) st3)
        | none => none
      | none => none
    | _, _ => none
  | _, _ => none

/-! ## Opcode handlers.  Each mirrors one `CASE_CODE` block of vm.c
`run`; every runtime error is reported through `NFlow.rtErr`, which
the driver turns into a `runtimeError` call, exactly as every
`return INTERPRET_RUNTIME_ERROR` in the C dispatch loop is preceded by
a `runtimeError` call. -/

def opConstant (st : VMState) : NFlow :=
  match readConstant st with
  | some (v, st1) => .next (pushVal v st1)
  | none => .stuck

def opGetLocal (st : VMState) : NFlow :=
  match readByte st with
  | some (b, st1) =>
    match curFrame st1 with
    | some fr =>
      match st1.stack.get? (fr.slots + b) with
      | some v => .next (pushVal v st1)
      | none => .stuck
    | none => .stuck
  | none => .stuck

def opSetLocal (st : VMState) : NFlow :=
  match readByte st with
  | some (b, st1) =>
    match curFrame st1, peekVal st1 0 with
    | some fr, some v => .next (setStackAt st1 (fr.slots + b) v)
    | _, _ => .stuck
  | none => .stuck

def opGetGlobal (st : VMState) : NFlow :=
  match readString st with
  | some (name, st1) =>
    match tableGet st1.globals name with
    | none =>
      .rtErr ("Undefined variable " ++ sq ++ name ++ sq ++ ".") st1
    | some v => .next (pushVal v st1)
  | none => .stuck

def opDefineGlobal (st : VMState) : NFlow :=
  match readString st with
  | some (name, st1) =>
    match peekVal st1 0 with
    | some v =>
      let st2 := { st1 with globals := (tableSet st1.globals name v).2 }
      match dropVal st2 with
      | some st3 => .next st3
      | none => .stuck
    | none => .stuck
  | none => .stuck

def opSetGlobal (st : VMState) : NFlow :=
  match readString st with
  | some (name, st1) =>
    match peekVal st1 0 with
    | some v =>
      let (isNew, g2) := tableSet st1.globals name v
      if isNew then
        .rtErr ("Undefined variable " ++ sq ++ name ++ sq ++ ".")
          { st1 with globals := tableDelete g2 name }
      else .next { st1 with globals := g2 }
    | none => .stuck
  | none => .stuck

def opGetUpvalue (st : VMState) : NFlow :=
  match readByte st with
  | some (b, st1) =>
    match curFrame st1 with
    | some fr =>
      match heapGet st1 fr.closureId with
      | some (.closure _ ups) =>
        match ups.get? b with
        | some (some uid) =>
          match heapGet st1 uid with
          | some (.upvalue (.stackSlot i) _) =>
            match st1.stack.get? i with
            | some v => .next (pushVal v st1)
            | none => .stuck
          | some (.upvalue .ownClosed c) => .next (pushVal c st1)
          | _ => .stuck
        | _ => .stuck
      | _ => .stuck
    | none => .stuck
  | none => .stuck

def opSetUpvalue (st : VMState) : NFlow :=
  match readByte st with
  | some (b, st1) =>
    match curFrame st1, peekVal st1 0 with
    | some fr, some v =>
      match heapGet st1 fr.closureId with
      | some (.closure _ ups) =>
        match ups.get? b with
        | some (some uid) =>
          match heapGet st1 uid with
          | some (.upvalue (.stackSlot i) _) =>
            .next (setStackAt st1 i v)
          | some (.upvalue .ownClosed _) =>
            .next (heapSet st1 uid (.upvalue .ownClosed v))
          | _ => .stuck
        | _ => .stuck
      | _ => .stuck
    | _, _ => .stuck
  | none => .stuck

def opGetProperty (st : VMState) : NFlow :=
  match peekVal st 0 with
  | some (.obj rid) =>
    match heapGet st rid with
    | some (.inst klassId fields) =>
      match readString st with
      | some (name, st1) =>
        match tableGet fields name with
        | some value =>
          match dropVal st1 with
          | some st2 => .next (pushVal value st2)
          | none => .stuck
        | none => bindMethod klassId name st1
      | none => .stuck
    | _ => .rtErr "Only instances have properties." st
  | some _ => .rtErr "Only instances have properties." st
  | none => .stuck

def opSetProperty (st : VMState) : NFlow :=
  match peekVal st 1 with
  | some (.obj rid) =>
    match heapGet st rid with
    | some (.inst klassId fields) =>
      match readString st with
      | some (name, st1) =>
        match peekVal st1 0 with
        | some v =>
          let st2 := heapSet st1 rid
            (.inst klassId (tableSet fields name v).2)
          match popVal st2 with
          | some (value, st3) =>
            match dropVal st3 with
            | some st4 => .next (pushVal value st4)
            | none => .stuck
          | none => .stuck
        | none => .stuck
      | none => .stuck
    | _ => .rtErr "Only instances have fields." st
  | some _ => .rtErr "Only instances have fields." st
  | none => .stuck

def opGetSuper (st : VMState) : NFlow :=
  match readString st with
  | some (name, st1) =>
    match popVal st1 with
    | some (.obj sid, st2) => bindMethod sid name st2
    | _ => .stuck
  | none => .stuck

def opEqual (st : VMState) : NFlow :=
  match popVal st with
  | some (b, st1) =>
    match popVal st1 with
    | some (a, st2) => .next (pushVal (.bool (valuesEqual a b)) st2)
    | none => .stuck
  | none => .stuck

/-- vm.c run's `BINARY_OP` macro: both operands must be numbers. -/
def binaryOpNum (f : CDouble → CDouble → Value) (st : VMState) : NFlow :=
  match peekVal st 0, peekVal st 1 with
  | some b, some a =>
    if ¬ isNumberV b ∨ ¬ isNumberV a then
      .rtErr "Operands must be numbers." st
    else
      match popVal st with
      | some (.number bn, st1) =>
        match popVal st1 with
        | some (.number an, st2) => .next (pushVal (f an bn) st2)
        | _ => .stuck
      | _ => .stuck
  | _, _ => .stuck

def opAdd (st : VMState) : NFlow :=
  match peekVal st 0, peekVal st 1 with
  | some b, some a =>
    if isStringV st b && isStringV st a then
      match concatenate st with
      | some st1 => .next st1
      | none => .stuck
    else if isNumberV b && isNumberV a then
      match popVal st with
      | some (.number bn, st1) =>
        match popVal st1 with
        | some (.number an, st2) =>
          .next (pushVal (.number (an + bn)) st2)
        | _ => .stuck
      | _ => .stuck
    else
      .rtErr "Operands must be two numbers or two strings." st
  | _, _ => .stuck

def opNot (st : VMState) : NFlow :=
  match popVal st with
  | some (v, st1) => .next (pushVal (.bool (isFalsey v)) st1)
  | none => .stuck

def opNegate (st : VMState) : NFlow :=
  match peekVal st 0 with
  | some v =>
    if ¬ isNumberV v then .rtErr "Operand must be a number." st
    else
      match popVal st with
      | some (.number n, st1) => .next (pushVal (.number (-n)) st1)
      | _ => .stuck
  | none => .stuck

def opPrint (st : VMState) : NFlow :=
  match popVal st with
  | some (v, st1) => .next { st1 with stdoutLog := st1.stdoutLog ++ [v] }
  | none => .stuck

def opJump (st : VMState) : NFlow :=
  match readShort st with
  | some (offset, st1) =>
    match curFrame st1 with
    | some fr => .next (setIp st1 (fr.ip + offset))
    | none => .stuck
  | none => .stuck

def opJumpIfFalse (st : VMState) : NFlow :=
  match readShort st with
  | some (offset, st1) =>
    match curFrame st1, peekVal st1 0 with
    | some fr, some v =>
      if isFalsey v then .next (setIp st1 (fr.ip + offset))
      else .next st1
    | _, _ => .stuck
  | none => .stuck

/-- `OP_LOOP` rewinds the instruction pointer; rewinding past the
start of the chunk is undefined behaviour in C (a pointer before the
code array) and truncates at 0 here; no claim exercises it. -/
def opLoop (st : VMState) : NFlow :=
  match readShort st with
  | some (offset, st1) =>
    match curFrame st1 with
    | some fr => .next (setIp st1 (fr.ip - offset))
    | none => .stuck
  | none => .stuck

def opCall (st : VMState) : NFlow :=
  match readByte st with
  | some (argCount, st1) =>
    match peekVal st1 argCount with
    | some callee => callValue callee argCount st1
    | none => .stuck
  | none => .stuck

def opInvoke (st : VMState) : NFlow :=
  match readString st with
  | some (method, st1) =>
    match readByte st1 with
    | some (argCount, st2) => invoke method argCount st2
    | none => .stuck
  | none => .stuck

def opSuperInvoke (st : VMState) : NFlow :=
  match readString st with
  | some (method, st1) =>
    match readByte st1 with
    | some (argCount, st2) =>
      match popVal st2 with
      | some (.obj sid, st3) => invokeFromClass sid method argCount st3
      | _ => .stuck
    | none => .stuck
  | none => .stuck

/-- Write upvalue reference `i` of closure `cid`
(`closure->upvalues[i] = ...`). -/
def setClosureUpvalue (st : VMState) (cid i : Nat) (uid : Option Nat) :
    Option VMState :=
  match heapGet st cid with
  | some (.closure fnId ups) =>
    some (heapSet st cid (.closure fnId (ups.set i uid)))
  | _ => none

/-- The per-upvalue loop of `OP_CLOSURE`: read `isLocal` and `index`,
then either capture a local slot of the running frame or copy the
enclosing closure's upvalue reference. -/
def closureLoop (cid : Nat) : Nat → Nat → VMState → NFlow
  | _, 0, st => .next st
  | i, n + 1, st =>
    match readByte st with
    | some (isLocal, st1) =>
      match readByte st1 with
      | some (index, st2) =>
        match curFrame st2 with
        | some fr =>
          if isLocal ≠ 0 then
            let (uid, st3) := captureUpvalue st2 (fr.slots + index)
            match setClosureUpvalue st3 cid i (some uid) with
            | some st4 => closureLoop cid (i + 1) n st4
            | none => .stuck
          else
            match heapGet st2 fr.closureId with
            | some (.closure _ ups) =>
              match ups.get? index with
              | some o =>
                match setClosureUpvalue st2 cid i o with
                | some st4 => closureLoop cid (i + 1) n st4
                | none => .stuck
              | none => .stuck
            | _ => .stuck
        | none => .stuck
      | none => .stuck
    | none => .stuck

/-- object.c `newClosure`, modelled from the spec (section 3: a
closure is a function plus a vector of upvalue references of the
function's upvalue count, initially NULL). -/
def newClosure (fnId : Nat) (st : VMState) : Option (Nat × VMState) :=
  match heapGet st fnId with
  | some (.fn f) =>
    some (allocate (.closure fnId (List.replicate f.upvalueCount none)) st)
  | _ => none

def opClosure (st : VMState) : NFlow :=
  match readConstant st with
  | some (.obj fid, st1) =>
    match heapGet st1 fid with
    | some (.fn f) =>
      match newClosure fid st1 with
      | some (cid, st2) =>
        closureLoop cid 0 f.upvalueCount (pushVal (.obj cid) st2)
      | none => .stuck
    | _ => .stuck
  | _ => .stuck

def opCloseUpvalue (st : VMState) : NFlow :=
  let st1 := closeUpvalues (st.stack.length - 1) st
  match dropVal st1 with
  | some st2 => .next st2
  | none => .stuck

def opClass (st : VMState) : NFlow :=
  match readString st with
  | some (name, st1) =>
    let (kid, st2) := allocate (.klass name []) st1
    .next (pushVal (.obj kid) st2)
  | none => .stuck

def opInherit (st : VMState) : NFlow :=
  match peekVal st 1 with
  | some (.obj sid) =>
    match heapGet st sid with
    | some (.klass _ smethods) =>
      match peekVal st 0 with
      | some (.obj kid) =>
        match heapGet st kid with
        | some (.klass kname kmethods) =>
          let st1 := heapSet st kid
            (.klass kname (tableAddAll smethods kmethods))
          match dropVal st1 with
          | some st2 => .next st2
          | none => .stuck
        | _ => .stuck
      | _ => .stuck
    | _ => .rtErr "Superclass must be a class." st
  | some _ => .rtErr "Superclass must be a class." st
  | none => .stuck

def opMethod (st : VMState) : NFlow :=
  match readString st with
  | some (name, st1) => defineMethod name st1
  | none => .stuck

/-- `OP_RETURN` (vm.c run, `CASE_CODE(RETURN)`): pop the result, close
the departing frame's upvalues, drop the frame; if it was the last
frame, drop the script sentinel and return `INTERPRET_OK`; otherwise
cut the stack back to the frame base, push the result and resume the
caller. -/
def opReturn (st : VMState) : Flow :=
  match curFrame st with
  | none => .stuck
  | some fr =>
    match popVal st with
    | none => .stuck
    | some (result, st1) =>
      let st2 := closeUpvalues fr.slots st1
      let st3 := { st2 with frames := st2.frames.dropLast }
      if st3.frames.isEmpty then
        match dropVal st3 with
        | some st4 => .retOk st4
        | none => .stuck
      else
        .next (pushVal result { st3 with stack := st3.stack.take fr.slots })

/-- One opcode dispatch of vm.c `run`. -/
def execOp (op : OpCode) (st : VMState) : Flow :=
  match op with
  | .CONSTANT => (opConstant st).toFlow
  | .NIL => .next (pushVal .nil st)
  | .TRUE => .next (pushVal (.bool true) st)
  | .FALSE => .next (pushVal (.bool false) st)
  | .POP =>
    match dropVal st with
    | some st1 => .next st1
    | none => .stuck
  | .GET_LOCAL => (opGetLocal st).toFlow
  | .SET_LOCAL => (opSetLocal st).toFlow
  | .GET_GLOBAL => (opGetGlobal st).toFlow
  | .DEFINE_GLOBAL => (opDefineGlobal st).toFlow
  | .SET_GLOBAL => (opSetGlobal st).toFlow
  | .GET_UPVALUE => (opGetUpvalue st).toFlow
  | .SET_UPVALUE => (opSetUpvalue st).toFlow
  | .GET_PROPERTY => (opGetProperty st).toFlow
  | .SET_PROPERTY => (opSetProperty st).toFlow
  | .GET_SUPER => (opGetSuper st).toFlow
  | .EQUAL => (opEqual st).toFlow
  | .GREATER =>
    (binaryOpNum (fun a b => .bool (decide (b < a))) st).toFlow
  | .LESS =>
    (binaryOpNum (fun a b => .bool (decide (a < b))) st).toFlow
  | .ADD => (opAdd st).toFlow
  | .SUBTRACT => (binaryOpNum (fun a b => .number (a - b)) st).toFlow
  | .MULTIPLY => (binaryOpNum (fun a b => .number (a * b)) st).toFlow
  | .DIVIDE => (binaryOpNum (fun a b => .number (a / b)) st).toFlow
  | .NOT => (opNot st).toFlow
  | .NEGATE => (opNegate st).toFlow
  | .PRINT => (opPrint st).toFlow
  | .JUMP => (opJump st).toFlow
  | .JUMP_IF_FALSE => (opJumpIfFalse st).toFlow
  | .LOOP => (opLoop st).toFlow
  | .CALL => (opCall st).toFlow
  | .INVOKE => (opInvoke st).toFlow
  | .SUPER_INVOKE => (opSuperInvoke st).toFlow
  | .CLOSURE => (opClosure st).toFlow
  | .CLOSE_UPVALUE => (opCloseUpvalue st).toFlow
  | .RETURN => opReturn st
  | .CLASS => (opClass st).toFlow
  | .INHERIT => (opInherit st).toFlow
  | .METHOD => (opMethod st).toFlow

/-- One iteration of the dispatch loop: read the opcode byte and
execute its handler. -/
def step (st : VMState) : Flow :=
  match readByte st with
  | none => .stuck
  | some (b, st1) =>
    match OpCode.ofByte b with
    | none => .stuck
    | some op => execOp op st1

/-- The outcome of running the dispatch loop: the `InterpretResult`
values `INTERPRET_OK` and `INTERPRET_RUNTIME_ERROR`, process exit via
the `exit` native, C undefined behaviour, and fuel exhaustion. -/
inductive RunRes where
  | ok (st : VMState)
  | runtimeErr (st : VMState)
  | halted (st : VMState)
  | stuck (st : VMState)
  | outOfFuel (st : VMState)
deriving DecidableEq, Repr

/-- vm.c `run`, fuel-indexed: iterate `step`; a `rtErr` step performs
`runtimeError` (message to stderr, then `resetStack`) and returns
`INTERPRET_RUNTIME_ERROR`. -/
def run : Nat → VMState → RunRes
  | 0, st => .outOfFuel st
  | fuel + 1, st =>
    match step st with
    | .next st1 => run fuel st1
    | .retOk st1 => .ok st1
    | .rtErr msg st1 => .runtimeErr (runtimeError msg st1)
    | .halt st1 => .halted st1
    | .stuck => .stuck st

/-- vm.c `interpret`, after the external compiler has produced the
top-level function: push the function, wrap it in a closure, pop, push
the closure, `call` it with zero arguments (the boolean result is
ignored, exactly as in the C source), and enter `run`. -/
def interpretFunction (f : ObjFunction) (st : VMState) (fuel : Nat) :
    RunRes :=
  let (fid, s1) := allocate (.fn f) st
  let s2 := pushVal (.obj fid) s1
  match newClosure fid s2 with
  | none => .stuck s2
  | some (cid, s3) =>
    match popVal s3 with
    | none => .stuck s3
    | some (_, s4) =>
      let s5 := pushVal (.obj cid) s4
      match call cid 0 s5 with
      | .next s6 => run fuel s6
      | .rtErr msg s6 => run fuel (runtimeError msg s6)
      | _ => .stuck s5

/-! ## Facts about the dispatch loop used by claims C1 and C9 -/

theorem closeUpvaluesGo_stack (last : Nat) :
    ∀ (xs : List Nat) (st : VMState),
      (closeUpvaluesGo last xs st).stack = st.stack := by
  intro xs
  induction xs with
  | nil => intro st; rfl
  | cons a xs ih =>
    intro st
    unfold closeUpvaluesGo
    split
    · split
      · rw [ih]
      · rfl
    · rfl

theorem closeUpvalues_stack (last : Nat) (st : VMState) :
    (closeUpvalues last st).stack = st.stack :=
  closeUpvaluesGo_stack last st.openUpvalues st

theorem popVal_stack {st : VMState} {v : Value} {st1 : VMState}
    (h : popVal st = some (v, st1)) : st1.stack = st.stack.dropLast := by
  unfold popVal at h
  cases hgl : st.stack.getLast? with
  | none => rw [hgl] at h; exact absurd h (by simp)
  | some w =>
    rw [hgl] at h
    simp only [Option.some_inj, Prod.mk.injEq] at h
    rw [← h.2]

theorem readByte_stack {st : VMState} {b : Nat} {st1 : VMState}
    (h : readByte st = some (b, st1)) : st1.stack = st.stack := by
  unfold readByte at h
  split at h
  · split at h
    · simp only [Option.some_inj, Prod.mk.injEq] at h
      rw [← h.2]
      rfl
    · exact absurd h (by simp)
  · exact absurd h (by simp)

theorem toFlow_ne_retOk (n : NFlow) (s : VMState) :
    n.toFlow ≠ Flow.retOk s := by
  cases n <;> simp [NFlow.toFlow]

/-- `INTERPRET_OK` is returned only by `OP_RETURN` popping the last
frame: the frame stack is empty and the value stack has lost the
result and the callee sentinel. -/
theorem step_retOk (st s2 : VMState) (h : step st = .retOk s2) :
    s2.frames = [] ∧ s2.stack = st.stack.dropLast.dropLast := by
  unfold step at h
  cases hrb : readByte st with
  | none => rw [hrb] at h; exact absurd h (by simp)
  | some p =>
    obtain ⟨b, st1⟩ := p
    rw [hrb] at h
    simp only at h
    cases hop : OpCode.ofByte b with
    | none => rw [hop] at h; exact absurd h (by simp)
    | some op =>
      rw [hop] at h
      simp only at h
      have hstack1 : st1.stack = st.stack := readByte_stack hrb
      cases op <;> simp only [execOp] at h
      case RETURN =>
        unfold opReturn at h
        cases hcf : curFrame st1 with
        | none => rw [hcf] at h; exact absurd h (by simp)
        | some fr =>
          rw [hcf] at h
          simp only at h
          cases hpv : popVal st1 with
          | none => rw [hpv] at h; exact absurd h (by simp)
          | some p2 =>
            obtain ⟨result, stp⟩ := p2
            rw [hpv] at h
            simp only at h
            set st3 : VMState :=
              { closeUpvalues fr.slots stp with
                frames := (closeUpvalues fr.slots stp).frames.dropLast }
              with hst3
            by_cases hemp : st3.frames.isEmpty
            · rw [if_pos hemp] at h
              cases hdv : dropVal st3 with
              | none => rw [hdv] at h; exact absurd h (by simp)
              | some st4 =>
                rw [hdv] at h
                simp only [Flow.retOk.injEq] at h
                subst h
                have hfr4 : st4.frames = st3.frames := by
                  unfold dropVal at hdv
                  cases hgl : st3.stack.getLast? with
                  | none => rw [hgl] at hdv; exact absurd hdv (by simp)
                  | some w =>
                    rw [hgl] at hdv
                    simp only [Option.some_inj] at hdv
                    rw [← hdv]
                have hsk4 : st4.stack = st3.stack.dropLast := by
                  unfold dropVal at hdv
                  cases hgl : st3.stack.getLast? with
                  | none => rw [hgl] at hdv; exact absurd hdv (by simp)
                  | some w =>
                    rw [hgl] at hdv
                    simp only [Option.some_inj] at hdv
                    rw [← hdv]
                constructor
                · rw [hfr4]
                  simpa using hemp
                · rw [hsk4]
                  have hcs : st3.stack = stp.stack :=
                    closeUpvalues_stack fr.slots stp
                  rw [hcs, popVal_stack hpv, hstack1]
            · rw [if_neg hemp] at h; exact absurd h (by simp)
      all_goals first
        | exact absurd h (toFlow_ne_retOk _ _)
        | exact absurd h (by simp)
        | (rcases hdv : dropVal st1 with _ | st3 <;> rw [hdv] at h <;>
             exact absurd h (by simp))

/-- Every `INTERPRET_RUNTIME_ERROR` return of `run` has passed through
`runtimeError`, so the final state has an empty value stack, no
frames, and no open upvalues. -/
theorem run_err_reset (fuel : Nat) :
    ∀ st s2, run fuel st = .runtimeErr s2 →
      s2.stack = [] ∧ s2.frames = [] ∧ s2.openUpvalues = [] := by
  induction fuel with
  | zero => intro st s2 h; simp [run] at h
  | succ n ih =>
    intro st s2 h
    unfold run at h
    cases hs : step st with
    | next st1 => rw [hs] at h; exact ih st1 s2 h
    | retOk st1 => rw [hs] at h; exact absurd h (by simp)
    | rtErr m st1 =>
      rw [hs] at h
      simp only [RunRes.runtimeErr.injEq] at h
      subst h
      exact ⟨rfl, rfl, rfl⟩
    | halt st1 => rw [hs] at h; exact absurd h (by simp)
    | stuck => rw [hs] at h; exact absurd h (by simp)

/-- `Modelled from the spec:` the bytecode compiler is external to
src/ (sections 1-2); per section 3 invariant 7 and section 4.5
(Return) it emits chunks whose execution keeps the declared stack
effects, so the top-level `OP_RETURN` runs with exactly the script
sentinel and the result on the stack.  This predicate checks that
discipline along a run: at the step that returns `INTERPRET_OK` the
stack holds exactly two values. -/
def DisciplinedRun : Nat → VMState → Bool
  | 0, _ => true
  | fuel + 1, st =>
    match step st with
    | .next st1 => DisciplinedRun fuel st1
    | .retOk _ => st.stack.length == 2
    | _ => true

theorem run_ok_reset (fuel : Nat) :
    ∀ st s2, DisciplinedRun fuel st = true → run fuel st = .ok s2 →
      s2.frames = [] ∧ s2.stack = [] := by
  induction fuel with
  | zero => intro st s2 _ h; simp [run] at h
  | succ n ih =>
    intro st s2 hd h
    unfold run at h
    unfold DisciplinedRun at hd
    cases hs : step st with
    | next st1 => rw [hs] at h hd; exact ih st1 s2 hd h
    | retOk st1 =>
      rw [hs] at h hd
      simp only [RunRes.ok.injEq] at h
      subst h
      obtain ⟨hfr, hsk⟩ := step_retOk st st1 hs
      refine ⟨hfr, ?_⟩
      rw [hsk]
      have hlen : st.stack.length = 2 := by simpa using hd
      have h2 : st.stack.dropLast.dropLast.length = 0 := by
        rw [List.length_dropLast, List.length_dropLast]; omega
      exact List.eq_nil_of_length_eq_zero h2
    | rtErr m st1 => rw [hs] at h; exact absurd h (by simp)
    | halt st1 => rw [hs] at h; exact absurd h (by simp)
    | stuck => rw [hs] at h; exact absurd h (by simp)

/-- The compiled-chunk discipline carried through `interpret`'s
prologue (see `DisciplinedRun`). -/
def DisciplinedInterpret (f : ObjFunction) (st : VMState) (fuel : Nat) :
    Bool :=
  let (fid, s1) := allocate (.fn f) st
  let s2 := pushVal (.obj fid) s1
  match newClosure fid s2 with
  | none => true
  | some (cid, s3) =>
    match popVal s3 with
    | none => true
    | some (_, s4) =>
      let s5 := pushVal (.obj cid) s4
      match call cid 0 s5 with
      | .next s6 => DisciplinedRun fuel s6
      | .rtErr msg s6 => DisciplinedRun fuel (runtimeError msg s6)
      | _ => true

/-- C1: `interpret` leaves the VM with `frameCount == 0` and
`stackTop == stack` (an empty value stack) on every termination with
`INTERPRET_OK` or `INTERPRET_RUNTIME_ERROR`.  The only hypothesis is
the compiled-chunk discipline `DisciplinedInterpret`, modelled from
the spec because the compiler is external to src/: the top-level
`OP_RETURN` executes with exactly the script sentinel and the result
on the stack.  The runtime-error half needs no discipline at all. -/
theorem interpret_resets (f : ObjFunction) (st : VMState) (fuel : Nat)
    (hd : DisciplinedInterpret f st fuel = true) :
    (∀ s2, interpretFunction f st fuel = .ok s2 →
       s2.frames = [] ∧ s2.stack = []) ∧
    (∀ s2, interpretFunction f st fuel = .runtimeErr s2 →
       s2.frames = [] ∧ s2.stack = []) := by
  unfold interpretFunction
  unfold DisciplinedInterpret at hd
  rcases halloc : allocate (.fn f) st with ⟨fid, s1⟩
  rw [halloc] at hd
  simp only at hd ⊢
  cases hnc : newClosure fid (pushVal (.obj fid) s1) with
  | none =>
    exact ⟨fun s2 h => absurd h (by simp), fun s2 h => absurd h (by simp)⟩
  | some p =>
    obtain ⟨cid, s3⟩ := p
    rw [hnc] at hd
    simp only at hd ⊢
    cases hpop : popVal s3 with
    | none =>
      exact ⟨fun s2 h => absurd h (by simp), fun s2 h => absurd h (by simp)⟩
    | some p2 =>
      obtain ⟨v, s4⟩ := p2
      rw [hpop] at hd
      simp only at hd ⊢
      cases hcall : call cid 0 (pushVal (.obj cid) s4) with
      | next s6 =>
        rw [hcall] at hd
        exact ⟨fun s2 h => run_ok_reset fuel s6 s2 hd h,
               fun s2 h =>
                 ⟨(run_err_reset fuel s6 s2 h).2.1,
                  (run_err_reset fuel s6 s2 h).1⟩⟩
      | rtErr msg s6 =>
        rw [hcall] at hd
        exact ⟨fun s2 h => run_ok_reset fuel (runtimeError msg s6) s2 hd h,
               fun s2 h =>
                 ⟨(run_err_reset fuel (runtimeError msg s6) s2 h).2.1,
                  (run_err_reset fuel (runtimeError msg s6) s2 h).1⟩⟩
      | halt s6 =>
        exact ⟨fun s2 h => absurd h (by simp),
               fun s2 h => absurd h (by simp)⟩
      | stuck =>
        exact ⟨fun s2 h => absurd h (by simp),
               fun s2 h => absurd h (by simp)⟩

/-- The two-instruction script `nil; return`. -/
def fnOk : ObjFunction :=
  { arity := 0, upvalueCount := 0, name := none,
    chunk := { code := [OpCode.toByte .NIL, OpCode.toByte .RETURN],
               constants := [], lines := [1, 1] } }

/-- The empty VM state. -/
def st0 : VMState :=
  { stack := [], frames := [], openUpvalues := [], heap := [],
    nextId := 0, globals := [], strings := [], stderrLog := [],
    stdoutLog := [], bytesAllocated := 0 }

/-- The state `interpretFunction fnOk st0` terminates in. -/
def stOkFinal : VMState :=
  { stack := [], frames := [], openUpvalues := [],
    heap := [(1, .closure 0 []), (0, .fn fnOk)], nextId := 2,
    globals := [], strings := [], stderrLog := [], stdoutLog := [],
    bytesAllocated := 2 }

/-- C1 witness: running the script `nil; return` terminates with
`INTERPRET_OK`, an empty frame stack and an empty value stack. -/
theorem interpret_resets_witness :
    DisciplinedInterpret fnOk st0 10 = true ∧
    interpretFunction fnOk st0 10 = .ok stOkFinal ∧
    ((∀ s2, interpretFunction fnOk st0 10 = .ok s2 →
        s2.frames = [] ∧ s2.stack = []) ∧
     (∀ s2, interpretFunction fnOk st0 10 = .runtimeErr s2 →
        s2.frames = [] ∧ s2.stack = [])) :=
  ⟨by decide, by decide, interpret_resets fnOk st0 10 (by decide)⟩

/-- C9: whenever the dispatch loop reports a runtime error,
`resetStack` clears the open-upvalue list in addition to
`stackTop = stack` and `frameCount = 0`, so after every
`INTERPRET_RUNTIME_ERROR` return of `run` there are no open
upvalues. -/
theorem runtime_error_clears_upvalues (fuel : Nat) (st s2 : VMState)
    (h : run fuel st = .runtimeErr s2) :
    s2.openUpvalues = [] ∧ s2.stack = [] ∧ s2.frames = [] :=
  ⟨(run_err_reset fuel st s2 h).2.2, (run_err_reset fuel st s2 h).1,
   (run_err_reset fuel st s2 h).2.1⟩

/-- The two-instruction chunk `nil; negate`, which faults at run
time. -/
def fnErr : ObjFunction :=
  { arity := 0, upvalueCount := 0, name := none,
    chunk := { code := [OpCode.toByte .NIL, OpCode.toByte .NEGATE],
               constants := [], lines := [1, 1] } }

/-- A running state for `fnErr`: the script closure is on the stack
and its frame is active. -/
def stErr : VMState :=
  { stack := [.obj 1], frames := [⟨1, 0, 0⟩], openUpvalues := [],
    heap := [(0, .fn fnErr), (1, .closure 0 [])], nextId := 2,
    globals := [], strings := [], stderrLog := [], stdoutLog := [],
    bytesAllocated := 2 }

/-- The reset state `run` leaves after the `fnErr` fault. -/
def stErrFinal : VMState :=
  { stack := [], frames := [], openUpvalues := [],
    heap := [(0, .fn fnErr), (1, .closure 0 [])], nextId := 2,
    globals := [], strings := [],
    stderrLog := ["Operand must be a number."], stdoutLog := [],
    bytesAllocated := 2 }

/-- C9 witness: negating `nil` reports a runtime error and the final
state has no open upvalues, an empty stack and no frames. -/
theorem runtime_error_clears_upvalues_witness :
    run 3 stErr = .runtimeErr stErrFinal ∧
    (stErrFinal.openUpvalues = [] ∧ stErrFinal.stack = [] ∧
     stErrFinal.frames = []) :=
  ⟨by decide, runtime_error_clears_upvalues 3 stErr stErrFinal (by decide)⟩

/-! ## Stack-shape and interning lemmas for claims C2 and C5 -/

theorem peekVal0 {st : VMState} {l : List Value} {v : Value}
    (h : st.stack = l ++ [v]) : peekVal st 0 = some v := by
  unfold peekVal
  rw [h]
  have hidx : (l ++ [v]).length - 1 - 0 = l.length := by
    simp
  rw [hidx]
  exact List.get?_concat_length l v

theorem peekVal1 {st : VMState} {rest : List Value} {va vb : Value}
    (h : st.stack = rest ++ [va, vb]) : peekVal st 1 = some va := by
  unfold peekVal
  rw [h]
  have hidx : (rest ++ [va, vb]).length - 1 - 1 = rest.length + 0 := by
    simp
  rw [hidx, List.get?_append_right (by omega)]
  simp

theorem popVal_snoc {st : VMState} {l : List Value} {v : Value}
    (h : st.stack = l ++ [v]) :
    popVal st = some (v, { st with stack := l }) := by
  unfold popVal
  rw [h]
  rw [List.getLast?_concat, List.dropLast_concat]

/-- The intern-table invariant: every interned binding points at a
string object with those bytes. -/
def StringsWF (st : VMState) : Prop :=
  ∀ p ∈ st.strings, heapGet st p.2 = some (.str p.1)

theorem strLookup_mem :
    ∀ {t : List (String × Nat)} {s : String} {id : Nat},
      strLookup t s = some id → (s, id) ∈ t := by
  intro t
  induction t with
  | nil => intro s id h; simp [strLookup] at h
  | cons p rest ih =>
    intro s id h
    rcases p with ⟨k, w⟩
    unfold strLookup at h
    by_cases hk : k = s
    · rw [if_pos hk] at h
      rw [Option.some_inj] at h
      subst hk
      subst h
      exact List.mem_cons_self _ _
    · rw [if_neg hk] at h
      exact List.mem_cons_of_mem _ (ih h)

theorem takeString_spec (s : String) (st : VMState) (hWF : StringsWF st) :
    heapGet (takeString s st).2 (takeString s st).1 = some (.str s) ∧
    strLookup (takeString s st).2.strings s = some (takeString s st).1 ∧
    (takeString s st).2.stack = st.stack := by
  unfold takeString
  cases hl : strLookup st.strings s with
  | some id =>
    simp only
    exact ⟨hWF (s, id) (strLookup_mem hl), hl, by trivial⟩
  | none =>
    simp only [allocate]
    refine ⟨?_, ?_, by trivial⟩
    · simp [heapGet, heapLookup]
    · simp [strLookup]

theorem readByte_fields {st : VMState} {b : Nat} {st1 : VMState}
    (h : readByte st = some (b, st1)) :
    st1.stack = st.stack ∧ st1.globals = st.globals ∧
    st1.heap = st.heap ∧ st1.strings = st.strings := by
  unfold readByte at h
  split at h
  · split at h
    · simp only [Option.some_inj, Prod.mk.injEq] at h
      rw [← h.2]
      exact ⟨rfl, rfl, rfl, rfl⟩
    · exact absurd h (by simp)
  · exact absurd h (by simp)

theorem readConstant_fields {st : VMState} {v : Value} {st1 : VMState}
    (h : readConstant st = some (v, st1)) :
    st1.stack = st.stack ∧ st1.globals = st.globals ∧
    st1.heap = st.heap ∧ st1.strings = st.strings := by
  unfold readConstant at h
  cases hrb : readByte st with
  | none => rw [hrb] at h; exact absurd h (by simp)
  | some p =>
    obtain ⟨b, st2⟩ := p
    rw [hrb] at h
    simp only at h
    cases hff : frameFn st2 with
    | none => rw [hff] at h; exact absurd h (by simp)
    | some f =>
      rw [hff] at h
      simp only at h
      cases hcst : f.chunk.constants.get? b with
      | none => rw [hcst] at h; exact absurd h (by simp)
      | some v2 =>
        rw [hcst] at h
        simp only [Option.some_inj, Prod.mk.injEq] at h
        rw [← h.2]
        exact readByte_fields hrb

theorem readString_fields {st : VMState} {s : String} {st1 : VMState}
    (h : readString st = some (s, st1)) :
    st1.stack = st.stack ∧ st1.globals = st.globals ∧
    st1.heap = st.heap ∧ st1.strings = st.strings := by
  unfold readString at h
  cases hrc : readConstant st with
  | none => rw [hrc] at h; exact absurd h (by simp)
  | some p =>
    obtain ⟨v, st2⟩ := p
    rw [hrc] at h
    cases v with
    | obj id =>
      simp only at h
      cases hhg : heapGet st2 id with
      | none => rw [hhg] at h; exact absurd h (by simp)
      | some o =>
        rw [hhg] at h
        cases o with
        | str s2 =>
          simp only [Option.some_inj, Prod.mk.injEq] at h
          rw [← h.2]
          exact readConstant_fields hrc
        | fn f => exact absurd h (by simp)
        | native t => exact absurd h (by simp)
        | closure a b => exact absurd h (by simp)
        | upvalue a b => exact absurd h (by simp)
        | klass a b => exact absurd h (by simp)
        | inst a b => exact absurd h (by simp)
        | boundMethod a b => exact absurd h (by simp)
    | nil => exact absurd h (by simp)
    | bool b => exact absurd h (by simp)
    | number n => exact absurd h (by simp)

/-- C2: executing `OP_ADD` with two string operands on top of the
stack replaces them with their concatenation as an interned string;
with two number operands it replaces them with their sum (doubles
modelled by `CDouble`); with any other combination it reports the
runtime error "Operands must be two numbers or two strings." and the
interpreter returns `INTERPRET_RUNTIME_ERROR`. -/
theorem opAdd_spec (st st1 : VMState) (bbyte : Nat) (rest : List Value)
    (va vb : Value)
    (hrb : readByte st = some (bbyte, st1))
    (hop : OpCode.ofByte bbyte = some OpCode.ADD)
    (hstack : st1.stack = rest ++ [va, vb]) :
    (∀ ia ib sa sb, va = .obj ia → vb = .obj ib →
       heapGet st1 ia = some (.str sa) → heapGet st1 ib = some (.str sb) →
       StringsWF st1 →
       ∃ rid st2, step st = .next st2 ∧
         st2.stack = rest ++ [.obj rid] ∧
         heapGet st2 rid = some (.str (sa ++ sb)) ∧
         strLookup st2.strings (sa ++ sb) = some rid) ∧
    (∀ x y, va = .number x → vb = .number y →
       ∃ st2, step st = .next st2 ∧
         st2.stack = rest ++ [.number (x + y)]) ∧
    (¬ (isStringV st1 vb = true ∧ isStringV st1 va = true) →
     ¬ (isNumberV vb = true ∧ isNumberV va = true) →
       step st = .rtErr "Operands must be two numbers or two strings." st1 ∧
       (∀ k, run (k + 1) st =
          .runtimeErr
            (runtimeError "Operands must be two numbers or two strings."
              st1))) := by
  have hstep : step st = (opAdd st1).toFlow := by
    unfold step
    rw [hrb]
    simp only
    rw [hop]
    rfl
  have hp0 : peekVal st1 0 = some vb :=
    peekVal0 (l := rest ++ [va]) (by simp [hstack])
  have hp1 : peekVal st1 1 = some va := peekVal1 hstack
  refine ⟨?_, ?_, ?_⟩
  · -- two strings: concatenation, interned
    intro ia ib sa sb hva hvb hga hgb hWF
    subst hva; subst hvb
    have hsb : isStringV st1 (.obj ib) = true := by
      simp [isStringV, hgb]
    have hsa : isStringV st1 (.obj ia) = true := by
      simp [isStringV, hga]
    obtain ⟨hT1, hT2, hT3⟩ := takeString_spec (sa ++ sb) st1 hWF
    rcases hts : takeString (sa ++ sb) st1 with ⟨rid, stT⟩
    rw [hts] at hT1 hT2 hT3
    simp only at hT1 hT2 hT3
    have hconc : concatenate st1 =
        some (pushVal (.obj rid) { stT with stack := rest }) := by
      simp only [concatenate, hp0, hp1, hgb, hga, hts]
      rw [popVal_snoc (l := rest ++ [Value.obj ia]) (v := Value.obj ib)
        (by rw [hT3, hstack]; simp)]
      simp only
      rw [popVal_snoc (l := rest) (v := Value.obj ia) rfl]
    refine ⟨rid, pushVal (.obj rid) { stT with stack := rest }, ?_, ?_, ?_, ?_⟩
    · rw [hstep]
      have hadd : opAdd st1 =
          .next (pushVal (.obj rid) { stT with stack := rest }) := by
        simp only [opAdd, hp0, hp1, hsb, hsa, Bool.and_self,
          eq_self_iff_true, if_true, hconc]
      rw [hadd]
      rfl
    · rfl
    · exact hT1
    · exact hT2
  · -- two numbers: the sum
    intro x y hva hvb
    subst hva; subst hvb
    refine ⟨pushVal (.number (x + y)) { st1 with stack := rest }, ?_, ?_⟩
    · rw [hstep]
      have hadd : opAdd st1 =
          .next (pushVal (.number (x + y))
            { st1 with stack := rest }) := by
        simp only [opAdd, hp0, hp1]
        rw [show isStringV st1 (.number y) = false from rfl]
        simp only [Bool.false_and]
        rw [if_neg (by simp)]
        rw [show (isNumberV (.number y) && isNumberV (.number x)) = true
          from rfl]
        simp only [eq_self_iff_true, if_true]
        rw [popVal_snoc (l := rest ++ [Value.number x]) (v := Value.number y)
          (by rw [hstack]; simp)]
        simp only
        rw [popVal_snoc (l := rest) (v := Value.number x) rfl]
      rw [hadd]
      rfl
    · rfl
  · -- anything else: runtime error
    intro hns hnn
    have hcond1 : (isStringV st1 vb && isStringV st1 va) = false := by
      rcases Bool.and_eq_true (isStringV st1 vb) (isStringV st1 va) with _
      by_contra hb
      rw [Bool.not_eq_false, Bool.and_eq_true] at hb
      exact hns hb
    have hcond2 : (isNumberV vb && isNumberV va) = false := by
      by_contra hb
      rw [Bool.not_eq_false, Bool.and_eq_true] at hb
      exact hnn hb
    have herr : step st =
        .rtErr "Operands must be two numbers or two strings." st1 := by
      rw [hstep]
      have hadd : opAdd st1 =
          .rtErr "Operands must be two numbers or two strings." st1 := by
        simp only [opAdd, hp0, hp1, hcond1, hcond2]
        rw [if_neg (by simp), if_neg (by simp)]
      rw [hadd]
      rfl
    refine ⟨herr, ?_⟩
    intro k
    unfold run
    rw [herr]

/-- A zero-arity function whose chunk is the single `OP_ADD` byte,
used by the `OP_ADD` witness. -/
def fnAdd : ObjFunction :=
  { arity := 0, upvalueCount := 0, name := none,
    chunk := { code := [18], constants := [], lines := [0] } }

/-- A VM state about to execute `OP_ADD` with the interned strings
"foo" and "bar" on top of the stack. -/
def stAdd : VMState :=
  { stack := [.obj 3, .obj 0, .obj 1],
    frames := [⟨3, 0, 0⟩],
    openUpvalues := [],
    heap := [(0, .str "foo"), (1, .str "bar"),
             (2, .fn fnAdd), (3, .closure 2 [])],
    nextId := 4,
    globals := [], strings := [("foo", 0), ("bar", 1)],
    stderrLog := [], stdoutLog := [], bytesAllocated := 4 }

/-- `stAdd` after `READ_BYTE()` advanced the instruction pointer. -/
def stAdd1 : VMState := { stAdd with frames := [⟨3, 1, 0⟩] }

/-- C2 witness: adding the interned strings "foo" and "bar" in `stAdd`
pushes an interned "foobar". -/
theorem opAdd_spec_witness :
    ∃ rid st2, step stAdd = .next st2 ∧
      st2.stack = [Value.obj 3] ++ [.obj rid] ∧
      heapGet st2 rid = some (.str ("foo" ++ "bar")) ∧
      strLookup st2.strings ("foo" ++ "bar") = some rid :=
  (opAdd_spec stAdd stAdd1 18 [.obj 3] (.obj 0) (.obj 1)
      (by decide) (by decide) (by decide)).1
    0 1 "foo" "bar" rfl rfl (by decide) (by decide)
    (by unfold StringsWF; decide)

/-! ## OP_SET_GLOBAL (vm.c lines 403-412, claim C5) -/

theorem tableGet_mapSet (t : List (String × Value)) (name : String)
    (v : Value) (h : (tableGet t name).isSome = true) :
    tableGet (t.map (fun p => if p.1 = name then (name, v) else p)) name =
      some v := by
  induction t with
  | nil => simp [tableGet] at h
  | cons p rest ih =>
    rcases p with ⟨k2, w⟩
    by_cases hk : k2 = name
    · subst hk
      simp only [List.map_cons]
      rw [if_pos trivial]
      rw [tableGet, if_pos rfl]
    · rw [tableGet] at h
      rw [if_neg hk] at h
      have := ih h
      simp only [List.map_cons]
      rw [if_neg hk]
      rw [tableGet]
      rw [if_neg hk]
      exact this

theorem tableGet_mapSet_ne (t : List (String × Value)) (name k : String)
    (v : Value) (hne : k ≠ name) :
    tableGet (t.map (fun p => if p.1 = name then (name, v) else p)) k =
      tableGet t k := by
  induction t with
  | nil => rfl
  | cons p rest ih =>
    rcases p with ⟨k2, w⟩
    by_cases hk : k2 = name
    · subst hk
      simp only [List.map_cons, if_pos rfl]
      rw [tableGet, tableGet]
      rw [if_neg (fun h => hne h.symm), if_neg (fun h => hne h.symm)]
      exact ih
    · simp only [List.map_cons]
      rw [if_neg hk]
      by_cases hk2 : k2 = k
      · subst hk2
        rw [tableGet, tableGet, if_pos rfl, if_pos rfl]
      · rw [tableGet, tableGet, if_neg hk2, if_neg hk2]
        exact ih

/-- C5: executing `OP_SET_GLOBAL` with a name that is not a key of the
globals table reports the runtime error "Undefined variable
(name)." and the interpreter returns `INTERPRET_RUNTIME_ERROR`, with
the globals table of the error state exactly the table before the
instruction (the spurious insert of `tableSet` is deleted again); with
a previously defined name it updates that binding, changes no other
binding, and leaves the stack, with the assigned value on top,
untouched. -/
theorem opSetGlobal_spec (st st1 st2 : VMState) (bbyte : Nat)
    (name : String) (v : Value)
    (hrb : readByte st = some (bbyte, st1))
    (hop : OpCode.ofByte bbyte = some OpCode.SET_GLOBAL)
    (hrs : readString st1 = some (name, st2))
    (hpeek : peekVal st2 0 = some v) :
    (tableGet st2.globals name = none →
       step st =
         .rtErr ("Undefined variable " ++ sq ++ name ++ sq ++ ".") st2 ∧
       (∀ k, run (k + 1) st =
          .runtimeErr
            (runtimeError
              ("Undefined variable " ++ sq ++ name ++ sq ++ ".") st2))) ∧
    (∀ v0, tableGet st2.globals name = some v0 →
       ∃ st3, step st = .next st3 ∧
         st3.stack = st2.stack ∧
         peekVal st3 0 = some v ∧
         tableGet st3.globals name = some v ∧
         (∀ k, k ≠ name →
            tableGet st3.globals k = tableGet st2.globals k)) := by
  have hstep : step st = (opSetGlobal st1).toFlow := by
    unfold step
    rw [hrb]
    simp only
    rw [hop]
    rfl
  constructor
  · -- undefined name: runtime error, globals restored
    intro hund
    have hset : tableSet st2.globals name v =
        (true, (name, v) :: st2.globals) := by
      simp [tableSet, hund]
    have hdel : tableDelete ((name, v) :: st2.globals) name =
        st2.globals := by
      simp [tableDelete, List.eraseP_cons_of_pos]
    have herr : step st =
        .rtErr ("Undefined variable " ++ sq ++ name ++ sq ++ ".") st2 := by
      rw [hstep]
      have hopg : opSetGlobal st1 =
          .rtErr ("Undefined variable " ++ sq ++ name ++ sq ++ ".") st2 := by
        simp only [opSetGlobal, hrs, hpeek, hset, if_true, hdel]
      rw [hopg]
      rfl
    refine ⟨herr, ?_⟩
    intro k
    unfold run
    rw [herr]
  · -- defined name: binding updated in place
    intro v0 hdef
    have hset : tableSet st2.globals name v =
        (false, st2.globals.map
          (fun p => if p.1 = name then (name, v) else p)) := by
      simp [tableSet, hdef]
    refine ⟨{ st2 with globals := List.map (fun p => if p.1 = name then (name, v) else p) st2.globals }, ?_, rfl, hpeek, ?_, ?_⟩
    · rw [hstep]
      have hopg : opSetGlobal st1 =
          .next { st2 with globals := List.map (fun p => if p.1 = name then (name, v) else p) st2.globals } := by
        simp only [opSetGlobal, hrs, hpeek, hset, Bool.false_eq_true,
          if_false]
      rw [hopg]
      rfl
    · exact tableGet_mapSet st2.globals name v (by rw [hdef]; rfl)
    · intro k hk
      exact tableGet_mapSet_ne st2.globals name k v hk

/-- A zero-arity function whose chunk is `OP_SET_GLOBAL` on constant
0, used by the `OP_SET_GLOBAL` witness. -/
def fnSet : ObjFunction :=
  { arity := 0, upvalueCount := 0, name := none,
    chunk := { code := [9, 0], constants := [.obj 0], lines := [0, 0] } }

/-- A VM state about to execute `OP_SET_GLOBAL` for the name "x",
which is not defined in the (empty) globals table. -/
def stSet : VMState :=
  { stack := [.obj 2, .number 1],
    frames := [⟨2, 0, 0⟩],
    openUpvalues := [],
    heap := [(0, .str "x"), (1, .fn fnSet), (2, .closure 1 [])],
    nextId := 3,
    globals := [], strings := [("x", 0)],
    stderrLog := [], stdoutLog := [], bytesAllocated := 3 }

/-- `stSet` after `READ_BYTE()`. -/
def stSet1 : VMState := { stSet with frames := [⟨2, 1, 0⟩] }

/-- `stSet` after `READ_STRING()`. -/
def stSet2 : VMState := { stSet with frames := [⟨2, 2, 0⟩] }

/-- C5 witness: assigning to the undefined global "x" in `stSet`
raises the runtime error and the globals table of the error state is
still empty. -/
theorem opSetGlobal_spec_witness :
    step stSet =
      .rtErr ("Undefined variable " ++ sq ++ "x" ++ sq ++ ".") stSet2 ∧
    stSet2.globals = [] ∧
    run 1 stSet =
      .runtimeErr
        (runtimeError
          ("Undefined variable " ++ sq ++ "x" ++ sq ++ ".") stSet2) :=
  have h := (opSetGlobal_spec stSet stSet1 stSet2 9 "x" (.number 1)
      (by decide) (by decide) (by decide) (by decide)).1 (by decide)
  ⟨h.1, rfl, h.2 0⟩

end Clox

